import Mathlib

/-!
Shallow embedding of the shape-detector pipeline (src/main.ts, class
ShapeDetector) and proofs about it.

Modelling conventions:
* JavaScript numbers are modelled as real numbers (`ℝ`); `Math.sqrt` is
  `Real.sqrt`, `Math.PI` is `Real.pi`, `Math.abs` is `|·|`, `Math.min` /
  `Math.max` are `min` / `max`.  Real division in Lean is total with
  `x / 0 = 0`.
* Grid pixels in the contour tracer are natural numbers, coordinates of
  traced points are integers (the tracer forms `x - 1` so coordinates must
  be allowed to go negative before the bounds check).
* The accumulation loops of `calculateMetrics` are written as `Finset.range`
  sums (area, perimeter, centre) and `foldl` min/max scans (bounding box);
  the `Infinity` initialisers of the min/max scan are modelled by starting
  the fold at the first point, which is equivalent for a nonempty list.
* `simplifyContour` in the source is recursive and does not terminate on
  every input (when the farthest-point index stays 0 and the distance
  threshold still fires, the second recursive call repeats the whole list);
  it is therefore embedded with explicit fuel returning `Option`, where
  `none` models divergence.  `classifyShape` propagates that `none` in its
  outer `Option` layer.
-/

open scoped Classical

namespace ShapeDetector

/-- A grid point with integer coordinates, as produced by the contour
tracer (neighbour offsets can take coordinates negative before the bounds
check, so `ℤ` is used). -/
structure GridPoint where
  x : ℤ
  y : ℤ
deriving DecidableEq, Repr

/-- An edge grid: rows of pixel values (0, 255 edge, 128 visited). -/
abbrev Grid := List (List ℕ)

/-- Read `grid[y][x]`; out-of-range reads default to 0 (they are always
guarded by the tracer's bounds check). -/
def getPix (g : Grid) (x y : ℤ) : ℕ :=
  (g.getD y.toNat []).getD x.toNat 0

/-- Write `grid[y][x] = v`. -/
def setPix (g : Grid) (x y : ℤ) (v : ℕ) : Grid :=
  g.set y.toNat ((g.getD y.toNat []).set x.toNat v)

/-- The fixed clockwise neighbour offsets (E, SE, S, SW, W, NW, N, NE). -/
def neighborOffsets : List GridPoint :=
  [⟨1, 0⟩, ⟨1, 1⟩, ⟨0, 1⟩, ⟨-1, 1⟩, ⟨-1, 0⟩, ⟨-1, -1⟩, ⟨0, -1⟩, ⟨1, -1⟩]

/-- Result of one scan of the 8 neighbours inside the trace loop. -/
inductive ScanResult where
  | closed
  | found (p : GridPoint) (idx : ℕ)
  | stuck
deriving DecidableEq, Repr

/-- The inner `for (let i = 0; ...)` loop of `traceContour`, scanning the
remaining loop counters `is`: skip out-of-bounds neighbours, close on the
start pixel, accept the first neighbour whose pixel value is 255 or 128. -/
def scanNeighbors (g : Grid) (w h : ℤ) (start current : GridPoint)
    (searchStart : ℕ) : List ℕ → ScanResult
  | [] => .stuck
  | i :: is =>
    let neighborIndex := (searchStart + i) % 8
    let nb := neighborOffsets.getD neighborIndex ⟨0, 0⟩
    let nextX := current.x + nb.x
    let nextY := current.y + nb.y
    if nextX < 0 ∨ nextX ≥ w ∨ nextY < 0 ∨ nextY ≥ h then
      scanNeighbors g w h start current searchStart is
    else if nextX = start.x ∧ nextY = start.y then
      .closed
    else if getPix g nextX nextY = 255 ∨ getPix g nextX nextY = 128 then
      .found ⟨nextX, nextY⟩ neighborIndex
    else
      scanNeighbors g w h start current searchStart is

/-- The `while (traceCount++ < MAX_TRACE)` loop of `traceContour`, with the
remaining iteration budget as fuel.  A closed contour or a dead end returns
the contour built so far; exhausting the fuel also returns it (the source
only logs a diagnostic in that case). -/
def traceLoop (w h : ℤ) (start : GridPoint) :
    ℕ → List GridPoint → GridPoint → ℕ → Grid → List GridPoint
  | 0, contour, _, _, _ => contour
  | fuel + 1, contour, current, searchStart, g =>
    match scanNeighbors g w h start current searchStart (List.range 8) with
    | .closed => contour
    | .stuck => contour
    | .found p neighborIndex =>
      let g2 := if getPix g p.x p.y = 255 then setPix g p.x p.y 128 else g
      traceLoop w h start fuel (contour ++ [p]) p ((neighborIndex + 5) % 8) g2

/-- The iteration safety cap of the trace loop. -/
def MAX_TRACE : ℕ := 20000

/-- `traceContour`: Moore-neighbour walk from `startPoint` over the edge
grid, starting the neighbour scan at index 4. -/
def traceContour (startPoint : GridPoint) (g : Grid) (w h : ℤ) :
    List GridPoint :=
  traceLoop w h startPoint MAX_TRACE [startPoint] startPoint 4 g

/-- The 5×3 edge grid of the C2 counterexample: a horizontal three-pixel
stroke whose leftmost pixel is the (already marked) starting pixel. -/
def c2Grid : Grid :=
  [[0, 0, 0, 0, 0],
   [0, 128, 255, 255, 0],
   [0, 0, 0, 0, 0]]

noncomputable section

/-- A 2D point with real coordinates, as used by the geometric stages. -/
structure Point where
  x : ℝ
  y : ℝ

/-- Bounding box record `{x, y, width, height}`. -/
structure BoundingBox where
  x : ℝ
  y : ℝ
  width : ℝ
  height : ℝ

/-- The metrics record computed by `calculateMetrics`. -/
structure Metrics where
  area : ℝ
  perimeter : ℝ
  boundingBox : BoundingBox
  center : Point

/-- The five shape types of `DetectedShape.type`. -/
inductive ShapeType where
  | circle
  | triangle
  | rectangle
  | pentagon
  | star
deriving DecidableEq

/-- The output entity of the classifier. -/
structure DetectedShape where
  type : ShapeType
  confidence : ℝ
  boundingBox : BoundingBox
  center : Point
  area : ℝ

/-- Default point used for (never taken) out-of-range list accesses. -/
def pt0 : Point := ⟨0, 0⟩

/-- The signed shoelace accumulator of `calculateMetrics`:
`area += (p1.x * p2.y - p2.x * p1.y)` over wrapping consecutive pairs. -/
def shoelaceSum (c : List Point) : ℝ :=
  ∑ i ∈ Finset.range c.length,
    ((c.getD i pt0).x * (c.getD ((i + 1) % c.length) pt0).y -
      (c.getD ((i + 1) % c.length) pt0).x * (c.getD i pt0).y)

/-- The perimeter accumulator of `calculateMetrics`:
`perimeter += sqrt((p2.x - p1.x)^2 + (p2.y - p1.y)^2)` over wrapping pairs. -/
def perimeterSum (c : List Point) : ℝ :=
  ∑ i ∈ Finset.range c.length,
    Real.sqrt (((c.getD ((i + 1) % c.length) pt0).x - (c.getD i pt0).x) ^ 2 +
      ((c.getD ((i + 1) % c.length) pt0).y - (c.getD i pt0).y) ^ 2)

/-- `calculateMetrics`: area (absolute shoelace / 2), perimeter, bounding box
and centre of a contour; the empty contour short-circuits to all-zero
metrics exactly as in the source. -/
def calculateMetrics (c : List Point) : Metrics :=
  match c with
  | [] => { area := 0, perimeter := 0
            boundingBox := { x := 0, y := 0, width := 0, height := 0 }
            center := ⟨0, 0⟩ }
  | p :: rest =>
    let minX := rest.foldl (fun m q => min m q.x) p.x
    let minY := rest.foldl (fun m q => min m q.y) p.y
    let maxX := rest.foldl (fun m q => max m q.x) p.x
    let maxY := rest.foldl (fun m q => max m q.y) p.y
    { area := |shoelaceSum (p :: rest) / 2|
      perimeter := perimeterSum (p :: rest)
      boundingBox := { x := minX, y := minY
                       width := maxX - minX, height := maxY - minY }
      center := ⟨(((p :: rest).map Point.x).sum) / (p :: rest).length,
                 (((p :: rest).map Point.y).sum) / (p :: rest).length⟩ }

/-- `perpendicularDistance`: distance from `point` to the segment from
`lineStart` to `lineEnd`, with the degenerate zero-length segment falling
back to the point-to-point distance. -/
def perpendicularDistance (point lineStart lineEnd : Point) : ℝ :=
  let dx := lineEnd.x - lineStart.x
  let dy := lineEnd.y - lineStart.y
  if dx = 0 ∧ dy = 0 then
    Real.sqrt ((point.x - lineStart.x) * (point.x - lineStart.x) +
      (point.y - lineStart.y) * (point.y - lineStart.y))
  else
    let lenSq := dx * dx + dy * dy
    let t := ((point.x - lineStart.x) * dx + (point.y - lineStart.y) * dy) / lenSq
    let closestX := if t < 0 then lineStart.x
      else if t > 1 then lineEnd.x else lineStart.x + t * dx
    let closestY := if t < 0 then lineStart.y
      else if t > 1 then lineEnd.y else lineStart.y + t * dy
    Real.sqrt ((point.x - closestX) * (point.x - closestX) +
      (point.y - closestY) * (point.y - closestY))

/-- The farthest-point scan of `simplifyContour`: walk the interior points
carrying the running pair `(dmax, index)`; `i` is the index in the full
point list of the head of the remaining interior list. -/
def farthestAux (p0 pe : Point) : List Point → ℕ → ℝ → ℕ → ℝ × ℕ
  | [], _, dmax, index => (dmax, index)
  | q :: rest, i, dmax, index =>
    if perpendicularDistance q p0 pe > dmax then
      farthestAux p0 pe rest (i + 1) (perpendicularDistance q p0 pe) i
    else
      farthestAux p0 pe rest (i + 1) dmax index

/-- The farthest-point loop of `simplifyContour` over the interior points
`points[1..end-1]`, returning the final `(dmax, index)` pair. -/
def splitFarthest (points : List Point) : ℝ × ℕ :=
  farthestAux (points.getD 0 pt0) (points.getD (points.length - 1) pt0)
    ((points.drop 1).dropLast) 1 0 0

/-- The recursive Ramer–Douglas–Peucker simplifier with explicit fuel;
`none` models divergence of the source recursion (which repeats the whole
list when the split index stays 0), fuel is only consumed by splits. -/
def simplifyFuel : ℕ → List Point → ℝ → Option (List Point)
  | 0, points, _ => if points.length < 3 then some points else none
  | fuel + 1, points, epsilon =>
    if points.length < 3 then some points
    else
      let fi := splitFarthest points
      if fi.1 > epsilon then
        match simplifyFuel fuel (points.take (fi.2 + 1)) epsilon,
            simplifyFuel fuel (points.drop fi.2) epsilon with
        | some recResults1, some recResults2 =>
          some (recResults1.dropLast ++ recResults2)
        | _, _ => none
      else
        some [points.getD 0 pt0, points.getD (points.length - 1) pt0]

/-- `simplifyContour` with enough fuel for every terminating run of the
source recursion (a split with index at least 1 strictly shrinks the list). -/
def simplifyContour (points : List Point) (epsilon : ℝ) : Option (List Point) :=
  simplifyFuel points.length points epsilon

/-- `crossProduct` of three points, used by the convex hull. -/
def crossProduct (o a b : Point) : ℝ :=
  (a.x - o.x) * (b.y - o.y) - (a.y - o.y) * (b.x - o.x)

/-- The sort order of `calculateConvexHull`: by x, ties by y. -/
def pointLE (a b : Point) : Prop :=
  a.x < b.x ∨ (a.x = b.x ∧ a.y ≤ b.y)

/-- Insert a point into a list sorted by `pointLE`. -/
def sortedInsert (p : Point) : List Point → List Point
  | [] => [p]
  | q :: rest => if pointLE p q then p :: q :: rest else q :: sortedInsert p rest

/-- Sorting `[...points].sort(comparator)` modelled as insertion sort under
the comparator's order (ties arise only between equal points, so any sort
under this order yields the same list of values). -/
def sortPoints (l : List Point) : List Point :=
  l.foldr sortedInsert []

/-- The pop-while loop of the monotone chain construction: pop the last
chain point while the last two chain points and `p` fail to make a strictly
left turn. -/
def chainPop (p : Point) (chain : List Point) : List Point :=
  if h : 2 ≤ chain.length ∧
      crossProduct (chain.getD (chain.length - 2) pt0)
        (chain.getD (chain.length - 1) pt0) p ≤ 0 then
    chainPop p chain.dropLast
  else
    chain
termination_by chain.length
decreasing_by
  simp only [List.length_dropLast]
  omega

/-- Build one monotone chain by pushing each point after the pop loop. -/
def buildChain (pts : List Point) : List Point :=
  pts.foldl (fun acc q => chainPop q acc ++ [q]) []

/-- `calculateConvexHull`: Andrew's monotone chain; at most 3 points are
returned unchanged, otherwise lower and upper chains are built over the
sorted points and concatenated with their last elements dropped. -/
def calculateConvexHull (points : List Point) : List Point :=
  if points.length ≤ 3 then points
  else
    let sortedPoints := sortPoints points
    let lower := buildChain sortedPoints
    let upper := buildChain sortedPoints.reverse
    lower.dropLast ++ upper.dropLast

/-- The circularity score `4π·area / perimeter²` of `classifyShape`. -/
def circularityOf (m : Metrics) : ℝ :=
  4 * Real.pi * m.area / (m.perimeter * m.perimeter)

/-- The solidity score of `classifyShape`: contour area over convex hull
area, 0 when the hull area is not positive. -/
def solidityOf (contour : List Point) (m : Metrics) : ℝ :=
  let hullMetrics := calculateMetrics (calculateConvexHull contour)
  if hullMetrics.area > 0 then m.area / hullMetrics.area else 0

/-- The corrected vertex count of `classifyShape`: drop one vertex when the
simplified polygon closes back on (within 10 units of) its first vertex. -/
def correctedVertexCount (vertices : List Point) : ℕ :=
  let numVertices := vertices.length
  if 1 < numVertices ∧
      Real.sqrt (((vertices.getD 0 pt0).x - (vertices.getD (numVertices - 1) pt0).x) ^ 2 +
        ((vertices.getD 0 pt0).y - (vertices.getD (numVertices - 1) pt0).y) ^ 2) < 10 then
    numVertices - 1
  else
    numVertices

/-- The aspect-ratio of `classifyShape` step 5, with the source's
`height || 1` and `width || 1` guards replacing a zero denominator by 1. -/
def aspectRatioOf (m : Metrics) : ℝ :=
  max (m.boundingBox.width /
        (if m.boundingBox.height = 0 then 1 else m.boundingBox.height))
      (m.boundingBox.height /
        (if m.boundingBox.width = 0 then 1 else m.boundingBox.width))

/-- Build a `DetectedShape` from type, confidence and the spread metrics. -/
def mkShape (t : ShapeType) (confidence : ℝ) (m : Metrics) : DetectedShape :=
  { type := t, confidence := confidence, boundingBox := m.boundingBox
    center := m.center, area := m.area }

/-- `classifyShape`: circularity test, solidity, simplification, vertex
count correction, aspect-ratio rejection, and the final decision table.
The outer `Option` is `none` exactly when the embedded simplifier diverges
(never for a nonnegative perimeter); the inner `Option` is the source's
`DetectedShape | null`. -/
def classifyShape (contour : List Point) (metrics : Metrics) :
    Option (Option DetectedShape) :=
  if circularityOf metrics > 0.80 then
    some (some (mkShape .circle (min (circularityOf metrics) 0.99) metrics))
  else
    let solidity := solidityOf contour metrics
    let epsilon := 0.06 * metrics.perimeter
    match simplifyContour contour epsilon with
    | none => none
    | some vertices =>
      let numVertices := correctedVertexCount vertices
      if aspectRatioOf metrics > 5.0 then
        some none
      else
        some (if numVertices = 3 then
                (if solidity > 0.9 then some (mkShape .triangle 0.90 metrics) else none)
              else if numVertices = 4 then
                (if solidity > 0.9 then some (mkShape .rectangle 0.92 metrics) else none)
              else if numVertices = 5 then
                (if solidity > 0.8 then some (mkShape .pentagon 0.88 metrics)
                 else if solidity > 0.3 then some (mkShape .star 0.82 metrics)
                 else none)
              else if numVertices = 10 then
                (if solidity < 0.8 then some (mkShape .star 0.82 metrics) else none)
              else none)

/-- A contour paired with its metrics, the element type of the lists
`analyzeContours` filters. -/
structure CM where
  contour : List Point
  metrics : Metrics

/-- Pass 1 of `analyzeContours`: compute metrics and drop contours whose
area is below 50. -/
def noiseFiltered (contours : List (List Point)) : List CM :=
  contours.filterMap (fun c =>
    let metrics := calculateMetrics c
    if metrics.area < 50 then none else some ⟨c, metrics⟩)

/-- Distance between the centres of two metric records. -/
def centerDist (m1 m2 : Metrics) : ℝ :=
  Real.sqrt ((m1.center.x - m2.center.x) ^ 2 + (m1.center.y - m2.center.y) ^ 2)

/-- The inner loop of pass 2 of `analyzeContours`: the element at position
`i` is an inner contour when some other element has its centre within 15
units and a strictly larger area (reference inequality of the source is
modelled by position inequality). -/
def isInnerAt (l : List CM) (i : ℕ) (cm1 : CM) : Prop :=
  ∃ p ∈ l.enum, p.1 ≠ i ∧ centerDist cm1.metrics p.2.metrics < 15 ∧
    p.2.metrics.area > cm1.metrics.area

/-- The filter of pass 2 over the indexed list. -/
def outerAux (l : List CM) : List (ℕ × CM) → List CM
  | [] => []
  | (i, cm) :: rest =>
    if isInnerAt l i cm then outerAux l rest else cm :: outerAux l rest

/-- Pass 2 of `analyzeContours`: keep only contours that are not inner
contours of some larger same-centre contour. -/
def outerContoursMetrics (l : List CM) : List CM :=
  outerAux l l.enum

/-- The contour+metrics pairs surviving both filter passes of
`analyzeContours`, in discovery order. -/
def survivingPairs (contours : List (List Point)) : List CM :=
  outerContoursMetrics (noiseFiltered contours)

/-- `analyzeContours`: classify each surviving pair and collect the shapes
(the outer `Option` divergence marker cannot fire here because pipeline
metrics have nonnegative perimeter, and is dropped). -/
def analyzeContours (contours : List (List Point)) : List DetectedShape :=
  (survivingPairs contours).filterMap (fun cm =>
    match classifyShape cm.contour cm.metrics with
    | some (some s) => some s
    | _ => none)

/-! ### Concrete inputs used by witnesses and counterexamples -/

/-- Metrics record of the C4 witness: area 1, perimeter 2, so the
circularity score is `π`. -/
def c4Metrics : Metrics :=
  { area := 1, perimeter := 2
    boundingBox := { x := 0, y := 0, width := 0, height := 0 }
    center := ⟨0, 0⟩ }

/-- Contour of the C1 witness: a two-point contour. -/
def c1Contour : List Point := [⟨0, 0⟩, ⟨9, 0⟩]

/-- Metrics record of the C1 witness: zero area (circularity 0) and a
bounding box with aspect ratio 3. -/
def c1Metrics : Metrics :=
  { area := 0, perimeter := 10
    boundingBox := { x := 0, y := 0, width := 9, height := 3 }
    center := ⟨0, 0⟩ }

/-- Contour of the C5 witness: a degenerate horizontal two-point contour
whose bounding box has width 12 and height 0. -/
def c5Contour : List Point := [⟨0, 0⟩, ⟨12, 0⟩]

/-- First rectangle of the C3 counterexample: centre (0,0), area 60. -/
def c3A : List Point := [⟨-5, -3⟩, ⟨5, -3⟩, ⟨5, 3⟩, ⟨-5, 3⟩]

/-- Second rectangle of the C3 counterexample: centre (10,0), area 70. -/
def c3B : List Point := [⟨5, -3.5⟩, ⟨15, -3.5⟩, ⟨15, 3.5⟩, ⟨5, 3.5⟩]

/-- Third rectangle of the C3 counterexample: centre (20,0), area 80. -/
def c3C : List Point := [⟨15, -4⟩, ⟨25, -4⟩, ⟨25, 4⟩, ⟨15, 4⟩]

/-! ### Lemmas about the contour tracer -/

theorem scanNeighbors_found_ne_start (g : Grid) (w h : ℤ)
    (start current : GridPoint) (ss : ℕ) (is : List ℕ) (p : GridPoint)
    (idx : ℕ) (hfound : scanNeighbors g w h start current ss is = .found p idx) :
    p ≠ start := by
  induction is with
  | nil => simp [scanNeighbors] at hfound
  | cons i is ih =>
    rw [scanNeighbors] at hfound
    split_ifs at hfound with hb hs hv
    all_goals try exact ih hfound
    all_goals try cases hfound
    all_goals intro heq
    all_goals cases heq
    all_goals exact hs ⟨rfl, rfl⟩

theorem traceLoop_length (w h : ℤ) (start : GridPoint) :
    ∀ (fuel : ℕ) (contour : List GridPoint) (current : GridPoint) (ss : ℕ)
      (g : Grid),
      (traceLoop w h start fuel contour current ss g).length ≤
        contour.length + fuel := by
  intro fuel
  induction fuel with
  | zero => intro contour current ss g; simp [traceLoop]
  | succ fuel ih =>
    intro contour current ss g
    rw [traceLoop]
    cases hscan : scanNeighbors g w h start current ss (List.range 8) with
    | closed => simp
    | stuck => simp
    | found p idx =>
      dsimp only
      have := ih (contour ++ [p]) p ((idx + 5) % 8)
        (if getPix g p.x p.y = 255 then setPix g p.x p.y 128 else g)
      calc (traceLoop w h start fuel (contour ++ [p]) p ((idx + 5) % 8)
              (if getPix g p.x p.y = 255 then setPix g p.x p.y 128 else g)).length
          ≤ (contour ++ [p]).length + fuel := this
        _ ≤ contour.length + (fuel + 1) := by simp; omega

theorem traceLoop_head (w h : ℤ) (start : GridPoint) :
    ∀ (fuel : ℕ) (a : GridPoint) (contour : List GridPoint)
      (current : GridPoint) (ss : ℕ) (g : Grid),
      (traceLoop w h start fuel (a :: contour) current ss g).head? = some a := by
  intro fuel
  induction fuel with
  | zero => intro a contour current ss g; simp [traceLoop]
  | succ fuel ih =>
    intro a contour current ss g
    rw [traceLoop]
    cases hscan : scanNeighbors g w h start current ss (List.range 8) with
    | closed => simp
    | stuck => simp
    | found p idx =>
      dsimp only
      rw [show a :: contour ++ [p] = a :: (contour ++ [p]) from rfl]
      exact ih a (contour ++ [p]) p ((idx + 5) % 8) _

theorem traceLoop_count_start (w h : ℤ) (start : GridPoint) :
    ∀ (fuel : ℕ) (contour : List GridPoint) (current : GridPoint) (ss : ℕ)
      (g : Grid), contour.count start = 1 →
      (traceLoop w h start fuel contour current ss g).count start = 1 := by
  intro fuel
  induction fuel with
  | zero => intro contour current ss g hc; simpa [traceLoop] using hc
  | succ fuel ih =>
    intro contour current ss g hc
    rw [traceLoop]
    cases hscan : scanNeighbors g w h start current ss (List.range 8) with
    | closed => exact hc
    | stuck => exact hc
    | found p idx =>
      dsimp only
      apply ih
      have hne : p ≠ start :=
        scanNeighbors_found_ne_start g w h start current ss _ p idx hscan
      rw [List.count_append, hc]
      simp [List.count_singleton', hne]

/-- C6: for every edge grid, image bounds and starting pixel, the trace
walk runs at most `MAX_TRACE = 20000` iterations — so the returned contour
holds at most `20001` points — and it always returns a contour that still
begins with the starting point (dead ends and the iteration cap both hand
back the partial contour instead of discarding it or failing). -/
theorem c6_traceContour_total_bounded (startPoint : GridPoint) (g : Grid)
    (w h : ℤ) :
    (traceContour startPoint g w h).length ≤ MAX_TRACE + 1 ∧
      (traceContour startPoint g w h).head? = some startPoint := by
  constructor
  · have := traceLoop_length w h startPoint MAX_TRACE [startPoint] startPoint 4 g
    simpa [traceContour, Nat.add_comm] using this
  · exact traceLoop_head w h startPoint MAX_TRACE startPoint [] startPoint 4 g

/-- C2 (amended): the walk accepts any in-bounds pixel of value 255 or 128
as the next point, so points other than the start can be appended more than
once; only the starting pixel is never re-appended — reaching it closes the
contour — hence the start appears exactly once in every traced contour. -/
theorem c2_traceContour_start_appears_once (startPoint : GridPoint)
    (g : Grid) (w h : ℤ) :
    (traceContour startPoint g w h).count startPoint = 1 := by
  apply traceLoop_count_start
  simp

/-- C2 counterexample: tracing the three-pixel stroke from `(1,1)` walks
east to `(3,1)` and then re-enters the already visited pixel `(2,1)`, which
is appended a second time even though it is not the starting pixel — the
returned contour is `[(1,1), (2,1), (3,1), (2,1)]`. -/
theorem c2_counterexample :
    traceContour ⟨1, 1⟩ c2Grid 5 3 = [⟨1, 1⟩, ⟨2, 1⟩, ⟨3, 1⟩, ⟨2, 1⟩] ∧
      (⟨2, 1⟩ : GridPoint) ≠ ⟨1, 1⟩ ∧
      (traceContour ⟨1, 1⟩ c2Grid 5 3).count ⟨2, 1⟩ = 2 := by
  refine ⟨by decide, by decide, by decide⟩

/-! ### List helper lemmas -/

theorem head?_dropLast {α : Type _} (l : List α) (h : 2 ≤ l.length) :
    l.dropLast.head? = l.head? := by
  match l, h with
  | a :: b :: t, _ => simp

theorem head?_append_left {α : Type _} (l m : List α) (h : l ≠ []) :
    (l ++ m).head? = l.head? := by
  cases l with
  | nil => exact absurd rfl h
  | cons a t => simp

theorem getLast?_append_right {α : Type _} (l m : List α) (h : m ≠ []) :
    (l ++ m).getLast? = m.getLast? := by
  rw [List.getLast?_append]
  cases hm : m.getLast? with
  | none => rw [List.getLast?_eq_none_iff] at hm; exact absurd hm h
  | some a => rfl

theorem drop_one_append {α : Type _} (l m : List α) (h : l ≠ []) :
    (l ++ m).drop 1 = l.drop 1 ++ m := by
  cases l with
  | nil => exact absurd rfl h
  | cons a t => simp

theorem dropLast_drop_comm {α : Type _} (l : List α) (m : ℕ) :
    (l.drop m).dropLast = l.dropLast.drop m := by
  rw [List.dropLast_eq_take, List.dropLast_eq_take, List.drop_take,
    List.length_drop]
  congr 1
  omega

theorem mem_take_of_le {α : Type _} {q : α} {l : List α} {a b : ℕ}
    (hab : a ≤ b) (h : q ∈ l.take a) : q ∈ l.take b := by
  have : l.take a = (l.take b).take a := by
    rw [List.take_take, min_eq_left hab]
  rw [this] at h
  exact List.mem_of_mem_take h

theorem sublist_dropLast {α : Type _} {l m : List α} (h : l.Sublist m) :
    l.dropLast.Sublist m.dropLast := by
  induction h with
  | slnil => simp
  | cons a h ih =>
    rename_i l' m'
    cases m' with
    | nil =>
      rw [List.sublist_nil] at h
      subst h
      simp
    | cons b m'' =>
      rw [show (a :: b :: m'').dropLast = a :: (b :: m'').dropLast from rfl]
      exact ih.cons a
  | cons₂ a h ih =>
    rename_i l' m'
    cases l' with
    | nil => simp
    | cons c l'' =>
      cases m' with
      | nil =>
        rw [List.sublist_nil] at h
        cases h
      | cons b m'' =>
        rw [show (a :: c :: l'').dropLast = a :: (c :: l'').dropLast from rfl,
          show (a :: b :: m'').dropLast = a :: (b :: m'').dropLast from rfl]
        exact ih.cons₂ a

theorem two_points_sublist (pts : List Point) (h : 2 ≤ pts.length) :
    [pts.getD 0 pt0, pts.getD (pts.length - 1) pt0].Sublist pts := by
  match pts, h with
  | a :: b :: t, _ =>
    have hlen : (a :: b :: t).length - 1 = t.length + 1 := by simp
    have hget : (a :: b :: t).getD (t.length + 1) pt0 = (b :: t).getLast (by simp) := by
      rw [List.getD_eq_getElem?_getD, List.getElem?_eq_getElem (by simp)]
      simp [List.getLast_eq_getElem]
    rw [show (a :: b :: t).getD 0 pt0 = a from rfl, hlen, hget]
    refine List.Sublist.cons₂ a ?_
    rw [List.singleton_sublist]
    exact List.getLast_mem _

/-! ### Lemmas about `farthestAux` -/

theorem farthestAux_append (p0 pe : Point) (u v : List Point) (i : ℕ)
    (dm : ℝ) (ix : ℕ) :
    farthestAux p0 pe (u ++ v) i dm ix =
      farthestAux p0 pe v (i + u.length) (farthestAux p0 pe u i dm ix).1
        (farthestAux p0 pe u i dm ix).2 := by
  induction u generalizing i dm ix with
  | nil => simp [farthestAux]
  | cons q u ih =>
    rw [List.cons_append, farthestAux, farthestAux]
    have harith : i + (q :: u).length = (i + 1) + u.length := by
      simp
      omega
    split_ifs with hq
    · rw [ih, harith]
    · rw [ih, harith]

theorem farthestAux_fst_ge (p0 pe : Point) (l : List Point) (i : ℕ) (dm : ℝ)
    (ix : ℕ) : dm ≤ (farthestAux p0 pe l i dm ix).1 := by
  induction l generalizing i dm ix with
  | nil => simp [farthestAux]
  | cons q l ih =>
    rw [farthestAux]
    split_ifs with hq
    · exact le_trans (le_of_lt hq) (ih (i + 1) _ i)
    · exact ih (i + 1) dm ix

theorem farthestAux_le (p0 pe : Point) (l : List Point) (i : ℕ) (dm : ℝ)
    (ix : ℕ) :
    ∀ q ∈ l, perpendicularDistance q p0 pe ≤ (farthestAux p0 pe l i dm ix).1 := by
  induction l generalizing i dm ix with
  | nil => intro q hq; cases hq
  | cons r l ih =>
    intro q hq
    rw [farthestAux]
    rcases List.mem_cons.1 hq with hqr | hql
    · subst hqr
      split_ifs with hr
      · exact farthestAux_fst_ge p0 pe l (i + 1) _ i
      · exact le_trans (not_lt.1 hr) (farthestAux_fst_ge p0 pe l (i + 1) dm ix)
    · split_ifs with hr
      · exact ih (i + 1) _ i q hql
      · exact ih (i + 1) dm ix q hql

theorem farthestAux_cases (p0 pe : Point) (l : List Point) (i : ℕ) (dm : ℝ)
    (ix : ℕ) :
    farthestAux p0 pe l i dm ix = (dm, ix) ∨
      ∃ k, k < l.length ∧ (farthestAux p0 pe l i dm ix).2 = i + k ∧
        (farthestAux p0 pe l i dm ix).1 =
          perpendicularDistance (l.getD k pt0) p0 pe ∧
        dm < (farthestAux p0 pe l i dm ix).1 ∧
        ∀ j < k, perpendicularDistance (l.getD j pt0) p0 pe <
          (farthestAux p0 pe l i dm ix).1 := by
  induction l generalizing i dm ix with
  | nil => left; simp [farthestAux]
  | cons q l ih =>
    rw [farthestAux]
    split_ifs with hq
    · right
      rcases ih (i + 1) (perpendicularDistance q p0 pe) i with heq | ⟨k, hk, h2, h1, hlt, hfa⟩
      · refine ⟨0, by simp, ?_, ?_, ?_, ?_⟩
        · rw [heq]; simp
        · rw [heq]; simp [List.getD_cons_zero]
        · rw [heq]; exact hq
        · intro j hj; exact absurd hj (by omega)
      · refine ⟨k + 1, by simpa using hk, ?_, ?_, ?_, ?_⟩
        · rw [h2]; omega
        · rw [h1]; simp [List.getD_cons_succ]
        · exact lt_trans hq hlt
        · intro j hj
          cases j with
          | zero => simpa [List.getD_cons_zero] using hlt
          | succ j' => simpa [List.getD_cons_succ] using hfa j' (by omega)
    · rcases ih (i + 1) dm ix with heq | ⟨k, hk, h2, h1, hlt, hfa⟩
      · left; exact heq
      · right
        refine ⟨k + 1, by simpa using hk, ?_, ?_, hlt, ?_⟩
        · rw [h2]; omega
        · rw [h1]; simp [List.getD_cons_succ]
        · intro j hj
          cases j with
          | zero => simpa [List.getD_cons_zero] using lt_of_le_of_lt (not_lt.1 hq) hlt
          | succ j' => simpa [List.getD_cons_succ] using hfa j' (by omega)

theorem farthestAux_lt_of_all_lt (p0 pe : Point) (l : List Point) (D : ℝ) :
    ∀ (i : ℕ) (dm : ℝ) (ix : ℕ),
      (∀ q ∈ l, perpendicularDistance q p0 pe < D) → dm < D →
      (farthestAux p0 pe l i dm ix).1 < D := by
  induction l with
  | nil => intro i dm ix _ hdm; simpa [farthestAux] using hdm
  | cons q l ih =>
    intro i dm ix hall hdm
    rw [farthestAux]
    split_ifs with hq
    · exact ih (i + 1) _ i (fun r hr => hall r (List.mem_cons_of_mem q hr))
        (hall q (List.mem_cons_self q l))
    · exact ih (i + 1) dm ix (fun r hr => hall r (List.mem_cons_of_mem q hr)) hdm

theorem farthestAux_noupdate (p0 pe : Point) (l : List Point) (dm : ℝ) :
    ∀ (i : ℕ) (ix : ℕ), (∀ q ∈ l, perpendicularDistance q p0 pe ≤ dm) →
      farthestAux p0 pe l i dm ix = (dm, ix) := by
  induction l with
  | nil => intro i ix _; rfl
  | cons q l ih =>
    intro i ix hall
    rw [farthestAux, if_neg (not_lt.2 (hall q (List.mem_cons_self q l)))]
    exact ih (i + 1) ix (fun r hr => hall r (List.mem_cons_of_mem q hr))

/-! ### Lemmas about `simplifyFuel` and `simplifyContour` -/

theorem simplifyFuel_small (f : ℕ) (pts : List Point) (ε : ℝ)
    (h : pts.length < 3) : simplifyFuel f pts ε = some pts := by
  cases f <;> simp [simplifyFuel, h]

theorem simplifyFuel_succ_of_ge3 (f : ℕ) (pts : List Point) (ε : ℝ)
    (h3 : ¬ pts.length < 3) :
    simplifyFuel (f + 1) pts ε =
      (if (splitFarthest pts).1 > ε then
        match simplifyFuel f (pts.take ((splitFarthest pts).2 + 1)) ε,
            simplifyFuel f (pts.drop ((splitFarthest pts).2)) ε with
        | some recResults1, some recResults2 =>
          some (recResults1.dropLast ++ recResults2)
        | _, _ => none
      else some [pts.getD 0 pt0, pts.getD (pts.length - 1) pt0]) := by
  conv_lhs => rw [simplifyFuel]
  rw [if_neg h3]

theorem simplifyFuel_mono :
    ∀ (f : ℕ) (pts : List Point) (ε : ℝ) (out : List Point),
      simplifyFuel f pts ε = some out → simplifyFuel (f + 1) pts ε = some out := by
  intro f
  induction f with
  | zero =>
    intro pts ε out hyp
    by_cases h3 : pts.length < 3
    · rw [simplifyFuel_small 0 pts ε h3] at hyp
      rw [simplifyFuel_small 1 pts ε h3]
      exact hyp
    · simp [simplifyFuel, h3] at hyp
  | succ f ih =>
    intro pts ε out hyp
    by_cases h3 : pts.length < 3
    · rw [simplifyFuel_small (f + 1) pts ε h3] at hyp
      rw [simplifyFuel_small (f + 2) pts ε h3]
      exact hyp
    · rw [simplifyFuel_succ_of_ge3 f pts ε h3] at hyp
      rw [simplifyFuel_succ_of_ge3 (f + 1) pts ε h3]
      by_cases hgt : (splitFarthest pts).1 > ε
      · rw [if_pos hgt] at hyp ⊢
        cases h1 : simplifyFuel f (pts.take ((splitFarthest pts).2 + 1)) ε with
        | none => rw [h1] at hyp; simp at hyp
        | some r1 =>
          cases h2 : simplifyFuel f (pts.drop ((splitFarthest pts).2)) ε with
          | none => rw [h1, h2] at hyp; simp at hyp
          | some r2 =>
            rw [h1, h2] at hyp
            rw [ih _ _ _ h1, ih _ _ _ h2]
            exact hyp
      · rw [if_neg hgt] at hyp ⊢
        exact hyp

theorem simplifyFuel_mono_le (f f' : ℕ) (pts : List Point) (ε : ℝ)
    (out : List Point) (hff : f ≤ f') (hyp : simplifyFuel f pts ε = some out) :
    simplifyFuel f' pts ε = some out := by
  induction f' with
  | zero =>
    have : f = 0 := by omega
    subst this
    exact hyp
  | succ f' ih =>
    by_cases heq : f = f' + 1
    · subst heq; exact hyp
    · exact simplifyFuel_mono f' pts ε out (ih (by omega))

theorem head?_eq_getD (pts : List Point) (h : pts ≠ []) :
    pts.head? = some (pts.getD 0 pt0) := by
  rw [List.head?_eq_getElem?, List.getD_eq_getElem?_getD,
    List.getElem?_eq_getElem (by rwa [List.length_pos])]
  rfl

theorem getLast?_eq_getD (pts : List Point) (h : pts ≠ []) :
    pts.getLast? = some (pts.getD (pts.length - 1) pt0) := by
  have hpos : 0 < pts.length := List.length_pos.2 h
  rw [List.getLast?_eq_getElem?, List.getD_eq_getElem?_getD,
    List.getElem?_eq_getElem (by omega)]
  rfl

theorem interior_take (pts : List Point) (idx : ℕ) (h2 : idx + 1 < pts.length) :
    ((pts.take (idx + 1)).drop 1).dropLast = (pts.drop 1).take (idx - 1) := by
  rw [List.drop_take, List.dropLast_take (by rw [List.length_drop]; omega)]
  congr 1

theorem interior_whole (pts : List Point) :
    (pts.drop 1).dropLast = (pts.drop 1).take (pts.length - 2) := by
  rw [List.dropLast_eq_take, List.length_drop]
  congr 1

theorem interior_drop (pts : List Point) (idx : ℕ) :
    ((pts.drop idx).drop 1).dropLast = pts.dropLast.drop (idx + 1) := by
  rw [List.drop_drop, dropLast_drop_comm]

theorem getD_mem_interior (pts : List Point) (idx : ℕ) (h1 : 1 ≤ idx)
    (h2 : idx ≤ pts.length - 2) (h3 : 3 ≤ pts.length) :
    pts.getD idx pt0 ∈ (pts.drop 1).dropLast := by
  rw [interior_whole]
  have hb : idx - 1 < ((pts.drop 1).take (pts.length - 2)).length := by
    rw [List.length_take, List.length_drop]
    omega
  have hval : ((pts.drop 1).take (pts.length - 2))[idx - 1] = pts.getD idx pt0 := by
    rw [List.getElem_take, List.getElem_drop]
    rw [List.getD_eq_getElem?_getD, List.getElem?_eq_getElem (by omega)]
    have : 1 + (idx - 1) = idx := by omega
    simp [this]
  rw [← hval]
  exact List.getElem_mem hb

theorem simplifyFuel_shape :
    ∀ (f : ℕ) (pts : List Point) (ε : ℝ) (out : List Point),
      simplifyFuel f pts ε = some out →
      out.Sublist pts ∧ out.head? = pts.head? ∧ out.getLast? = pts.getLast? ∧
        (2 ≤ pts.length → 2 ≤ out.length) ∧
        ∀ q ∈ (out.drop 1).dropLast, q ∈ (pts.drop 1).dropLast := by
  intro f
  induction f with
  | zero =>
    intro pts ε out hyp
    by_cases h3 : pts.length < 3
    · rw [simplifyFuel_small 0 pts ε h3, Option.some.injEq] at hyp
      subst hyp
      exact ⟨List.Sublist.refl _, rfl, rfl, fun h => h, fun q hq => hq⟩
    · simp [simplifyFuel, h3] at hyp
  | succ f ih =>
    intro pts ε out hyp
    by_cases h3 : pts.length < 3
    · rw [simplifyFuel_small (f + 1) pts ε h3, Option.some.injEq] at hyp
      subst hyp
      exact ⟨List.Sublist.refl _, rfl, rfl, fun h => h, fun q hq => hq⟩
    · have hne : pts ≠ [] := by
        intro hnil
        rw [hnil] at h3
        simp at h3
      rw [simplifyFuel_succ_of_ge3 f pts ε h3] at hyp
      by_cases hgt : (splitFarthest pts).1 > ε
      · rw [if_pos hgt] at hyp
        cases h1 : simplifyFuel f (pts.take ((splitFarthest pts).2 + 1)) ε with
        | none => rw [h1] at hyp; simp at hyp
        | some r1 =>
        cases h2 : simplifyFuel f (pts.drop ((splitFarthest pts).2)) ε with
        | none => rw [h1, h2] at hyp; simp at hyp
        | some r2 =>
        rw [h1, h2] at hyp
        simp only [Option.some.injEq] at hyp
        subst hyp
        rcases Nat.eq_zero_or_pos (splitFarthest pts).2 with hz | hpos
        · -- index 0: the first half is the single head point, the second
          -- half is the whole list again
          rw [hz] at h1 h2
          have htk : (pts.take (0 + 1)).length < 3 := by
            rw [List.length_take]
            omega
          rw [simplifyFuel_small f _ ε htk, Option.some.injEq] at h1
          have hr1d : r1.dropLast = [] := by
            rw [← h1, List.dropLast_eq_take, List.length_take]
            have : (1 ⊓ pts.length) - 1 = 0 := by
              have hpos : 0 < pts.length := by omega
              omega
            rw [this]
            simp
          rw [List.drop_zero] at h2
          obtain ⟨hs2, hh2, hl2, hlen2, hint2⟩ := ih _ _ _ h2
          rw [hr1d, List.nil_append]
          exact ⟨hs2, hh2, hl2, fun h => hlen2 h, hint2⟩
        · -- index at least 1
          have hcases := farthestAux_cases (pts.getD 0 pt0)
            (pts.getD (pts.length - 1) pt0) ((pts.drop 1).dropLast) 1 0 0
          have hintlen : ((pts.drop 1).dropLast).length = pts.length - 2 := by
            rw [List.length_dropLast, List.length_drop]
            omega
          have hidxle : (splitFarthest pts).2 ≤ pts.length - 2 := by
            rcases hcases with heq0 | ⟨k, hk, hk2, _, _, _⟩
            · rw [show (splitFarthest pts).2 =
                (farthestAux (pts.getD 0 pt0) (pts.getD (pts.length - 1) pt0)
                  ((pts.drop 1).dropLast) 1 0 0).2 from rfl, heq0]
              omega
            · rw [show (splitFarthest pts).2 =
                (farthestAux (pts.getD 0 pt0) (pts.getD (pts.length - 1) pt0)
                  ((pts.drop 1).dropLast) 1 0 0).2 from rfl, hk2]
              rw [hintlen] at hk
              omega
          set idx := (splitFarthest pts).2 with hidxdef
          obtain ⟨hs1, hh1, hl1, hlen1, hint1⟩ := ih _ _ _ h1
          obtain ⟨hs2, hh2, hl2, hlen2, hint2⟩ := ih _ _ _ h2
          have hA : (pts.take (idx + 1)).length = idx + 1 := by
            rw [List.length_take]
            omega
          have hB : (pts.drop idx).length = pts.length - idx := List.length_drop _ _
          have hr1len : 2 ≤ r1.length := hlen1 (by omega)
          have hr2len : 2 ≤ r2.length := hlen2 (by omega)
          have hr1dne : r1.dropLast ≠ [] := by
            apply List.ne_nil_of_length_pos
            rw [List.length_dropLast]
            omega
          have hr2ne : r2 ≠ [] := List.ne_nil_of_length_pos (by omega)
          have hsub1 : r1.dropLast.Sublist (pts.take idx) := by
            have hsub := sublist_dropLast hs1
            rw [List.dropLast_take (show idx + 1 < pts.length by omega)] at hsub
            have : idx + 1 - 1 = idx := by omega
            rwa [this] at hsub
          refine ⟨?_, ?_, ?_, ?_, ?_⟩
          · calc (r1.dropLast ++ r2).Sublist (pts.take idx ++ pts.drop idx) :=
              List.Sublist.append hsub1 hs2
            _ = pts := List.take_append_drop _ _
          · rw [head?_append_left _ _ hr1dne, head?_dropLast r1 hr1len, hh1,
              List.head?_take, if_neg (by omega : ¬ idx + 1 = 0)]
          · rw [getLast?_append_right _ _ hr2ne, hl2, List.getLast?_drop,
              if_neg (by omega : ¬ pts.length ≤ idx)]
          · intro _
            rw [List.length_append, List.length_dropLast]
            omega
          · intro q hq
            have hdecomp : ((r1.dropLast ++ r2).drop 1).dropLast =
                (r1.dropLast.drop 1) ++ r2.dropLast := by
              rw [drop_one_append _ _ hr1dne, List.dropLast_append_of_ne_nil _ hr2ne]
            rw [hdecomp] at hq
            rcases List.mem_append.1 hq with hqu | hqv
            · rw [← dropLast_drop_comm] at hqu
              have hq2 := hint1 q hqu
              rw [interior_take pts idx (by omega)] at hq2
              rw [interior_whole]
              exact mem_take_of_le (by omega) hq2
            · have hx : r2.head? = some (pts.getD idx pt0) := by
                rw [hh2, List.head?_drop,
                  List.getElem?_eq_getElem (show idx < pts.length by omega),
                  List.getD_eq_getElem?_getD,
                  List.getElem?_eq_getElem (show idx < pts.length by omega)]
                rfl
              obtain ⟨t2, ht2⟩ : ∃ t2, r2 = (pts.getD idx pt0) :: t2 := by
                cases r2 with
                | nil => cases hx
                | cons a t =>
                  rw [List.head?_cons, Option.some.injEq] at hx
                  exact ⟨t, by rw [hx]⟩
              have ht2ne : t2 ≠ [] := by
                apply List.ne_nil_of_length_pos
                rw [ht2] at hr2len
                rw [List.length_cons] at hr2len
                omega
              rw [ht2, List.dropLast_cons_of_ne_nil ht2ne] at hqv
              rcases List.mem_cons.1 hqv with hqx | hqt
              · rw [hqx]
                exact getD_mem_interior pts idx (by omega) hidxle (by omega)
              · have hqint : q ∈ (r2.drop 1).dropLast := by
                  rw [ht2]
                  simpa using hqt
                have hq2 := hint2 q hqint
                rw [interior_drop] at hq2
                rw [show (pts.drop 1).dropLast = pts.dropLast.drop 1 from
                  (dropLast_drop_comm pts 1)]
                have hshift : pts.dropLast.drop (idx + 1) =
                    (pts.dropLast.drop 1).drop idx := by
                  rw [List.drop_drop]
                  congr 1
                  omega
                rw [hshift] at hq2
                exact List.mem_of_mem_drop hq2
      · rw [if_neg hgt, Option.some.injEq] at hyp
        subst hyp
        refine ⟨two_points_sublist pts (by omega), ?_, ?_, ?_, ?_⟩
        · rw [head?_eq_getD pts hne]
          rfl
        · rw [getLast?_eq_getD pts hne]
          rfl
        · intro _
          simp
        · intro q hq
          simp at hq

theorem getD_eq_getElem_of_lt (l : List Point) (i : ℕ) (h : i < l.length)
    (d : Point) : l.getD i d = l[i] := by
  rw [List.getD_eq_getElem?_getD, List.getElem?_eq_getElem h]
  rfl

theorem interior_getD (pts : List Point) (j : ℕ) (hj : j < pts.length - 2) :
    ((pts.drop 1).dropLast).getD j pt0 = pts.getD (j + 1) pt0 := by
  have hlen : ((pts.drop 1).dropLast).length = pts.length - 2 := by
    rw [List.length_dropLast, List.length_drop]
    omega
  have hb1 : j < ((pts.drop 1).dropLast).length := by omega
  have hb2 : j + 1 < pts.length := by omega
  rw [List.getD_eq_getElem?_getD, List.getD_eq_getElem?_getD,
    List.getElem?_eq_getElem hb1, List.getElem?_eq_getElem hb2]
  have : ((pts.drop 1).dropLast)[j] = pts[j + 1] := by
    rw [List.getElem_dropLast, List.getElem_drop]
    congr 1
    omega
  rw [this]

theorem splitFarthest_snd_le (pts : List Point) (h3 : ¬ pts.length < 3) :
    (splitFarthest pts).2 ≤ pts.length - 2 := by
  have hintlen : ((pts.drop 1).dropLast).length = pts.length - 2 := by
    rw [List.length_dropLast, List.length_drop]
    omega
  rcases farthestAux_cases (pts.getD 0 pt0) (pts.getD (pts.length - 1) pt0)
      ((pts.drop 1).dropLast) 1 0 0 with heq0 | ⟨k, hk, hk2, _, _, _⟩
  · rw [show (splitFarthest pts).2 =
      (farthestAux (pts.getD 0 pt0) (pts.getD (pts.length - 1) pt0)
        ((pts.drop 1).dropLast) 1 0 0).2 from rfl, heq0]
    omega
  · rw [show (splitFarthest pts).2 =
      (farthestAux (pts.getD 0 pt0) (pts.getD (pts.length - 1) pt0)
        ((pts.drop 1).dropLast) 1 0 0).2 from rfl, hk2]
    rw [hintlen] at hk
    omega

theorem simplifyFuel_isSome :
    ∀ (f : ℕ) (pts : List Point) (ε : ℝ), 0 ≤ ε → pts.length ≤ f + 2 →
      ∃ out, simplifyFuel f pts ε = some out := by
  intro f
  induction f with
  | zero =>
    intro pts ε hε hlen
    exact ⟨pts, simplifyFuel_small 0 pts ε (by omega)⟩
  | succ f ih =>
    intro pts ε hε hlen
    by_cases h3 : pts.length < 3
    · exact ⟨pts, simplifyFuel_small (f + 1) pts ε h3⟩
    · rw [simplifyFuel_succ_of_ge3 f pts ε h3]
      by_cases hgt : (splitFarthest pts).1 > ε
      · rw [if_pos hgt]
        have hpos : 1 ≤ (splitFarthest pts).2 := by
          rcases farthestAux_cases (pts.getD 0 pt0) (pts.getD (pts.length - 1) pt0)
              ((pts.drop 1).dropLast) 1 0 0 with heq0 | ⟨k, hk, hk2, hk1, hklt, hkfa⟩
          · exfalso
            have : (splitFarthest pts).1 = 0 := by
              rw [show (splitFarthest pts).1 =
                (farthestAux (pts.getD 0 pt0) (pts.getD (pts.length - 1) pt0)
                  ((pts.drop 1).dropLast) 1 0 0).1 from rfl, heq0]
            rw [this] at hgt
            exact absurd (lt_of_le_of_lt hε hgt) (lt_irrefl 0)
          · rw [show (splitFarthest pts).2 =
              (farthestAux (pts.getD 0 pt0) (pts.getD (pts.length - 1) pt0)
                ((pts.drop 1).dropLast) 1 0 0).2 from rfl, hk2]
            omega
        have hle := splitFarthest_snd_le pts h3
        obtain ⟨r1, hr1⟩ := ih (pts.take ((splitFarthest pts).2 + 1)) ε hε
          (by rw [List.length_take]; omega)
        obtain ⟨r2, hr2⟩ := ih (pts.drop ((splitFarthest pts).2)) ε hε
          (by rw [List.length_drop]; omega)
        rw [hr1, hr2]
        exact ⟨r1.dropLast ++ r2, rfl⟩
      · rw [if_neg hgt]
        exact ⟨_, rfl⟩

theorem simplifyFuel_neg_eps :
    ∀ (f : ℕ) (pts : List Point) (ε : ℝ) (out : List Point), ε < 0 →
      simplifyFuel f pts ε = some out → out = pts := by
  intro f
  induction f with
  | zero =>
    intro pts ε out hε hyp
    by_cases h3 : pts.length < 3
    · rw [simplifyFuel_small 0 pts ε h3, Option.some.injEq] at hyp
      exact hyp.symm
    · simp [simplifyFuel, h3] at hyp
  | succ f ih =>
    intro pts ε out hε hyp
    by_cases h3 : pts.length < 3
    · rw [simplifyFuel_small (f + 1) pts ε h3, Option.some.injEq] at hyp
      exact hyp.symm
    · have hgt : (splitFarthest pts).1 > ε :=
        lt_of_lt_of_le hε (farthestAux_fst_ge _ _ _ _ _ _)
      rw [simplifyFuel_succ_of_ge3 f pts ε h3, if_pos hgt] at hyp
      cases h1 : simplifyFuel f (pts.take ((splitFarthest pts).2 + 1)) ε with
      | none => rw [h1] at hyp; simp at hyp
      | some r1 =>
      cases h2 : simplifyFuel f (pts.drop ((splitFarthest pts).2)) ε with
      | none => rw [h1, h2] at hyp; simp at hyp
      | some r2 =>
      rw [h1, h2] at hyp
      simp only [Option.some.injEq] at hyp
      have hr1 : r1 = pts.take ((splitFarthest pts).2 + 1) := ih _ _ _ hε h1
      have hr2 : r2 = pts.drop ((splitFarthest pts).2) := ih _ _ _ hε h2
      subst hr1 hr2
      rw [← hyp]
      rcases Nat.eq_zero_or_pos (splitFarthest pts).2 with hz | hpos
      · rw [hz]
        have h1len : (pts.take (0 + 1)).length ≤ 1 := by
          rw [List.length_take]
          omega
        have : (pts.take (0 + 1)).dropLast = [] := by
          rw [List.dropLast_eq_take]
          have : (pts.take (0 + 1)).length - 1 = 0 := by omega
          rw [this]
          simp
        rw [this, List.drop_zero, List.nil_append]
      · have hle := splitFarthest_snd_le pts h3
        rw [List.dropLast_take (show (splitFarthest pts).2 + 1 < pts.length by omega)]
        have : (splitFarthest pts).2 + 1 - 1 = (splitFarthest pts).2 := by omega
        rw [this, List.take_append_drop]

theorem simplifyFuel_to_exact :
    ∀ (f : ℕ) (pts : List Point) (ε : ℝ) (out : List Point),
      simplifyFuel f pts ε = some out →
      simplifyFuel pts.length pts ε = some out := by
  intro f
  induction f with
  | zero =>
    intro pts ε out hyp
    by_cases h3 : pts.length < 3
    · rw [simplifyFuel_small 0 pts ε h3, Option.some.injEq] at hyp
      subst hyp
      exact simplifyFuel_small _ _ _ h3
    · simp [simplifyFuel, h3] at hyp
  | succ f ih =>
    intro pts ε out hyp
    by_cases h3 : pts.length < 3
    · rw [simplifyFuel_small (f + 1) pts ε h3, Option.some.injEq] at hyp
      subst hyp
      exact simplifyFuel_small _ _ _ h3
    · rw [simplifyFuel_succ_of_ge3 f pts ε h3] at hyp
      by_cases hgt : (splitFarthest pts).1 > ε
      · rw [if_pos hgt] at hyp
        cases h1 : simplifyFuel f (pts.take ((splitFarthest pts).2 + 1)) ε with
        | none => rw [h1] at hyp; simp at hyp
        | some r1 =>
        cases h2 : simplifyFuel f (pts.drop ((splitFarthest pts).2)) ε with
        | none => rw [h1, h2] at hyp; simp at hyp
        | some r2 =>
        rw [h1, h2] at hyp
        simp only [Option.some.injEq] at hyp
        rcases Nat.eq_zero_or_pos (splitFarthest pts).2 with hz | hpos
        · -- index 0: the result is just the second recursive call's result
          rw [hz] at h1 h2
          have htk : (pts.take (0 + 1)).length < 3 := by
            rw [List.length_take]
            omega
          rw [simplifyFuel_small f _ ε htk, Option.some.injEq] at h1
          have hr1d : r1.dropLast = [] := by
            rw [← h1, List.dropLast_eq_take, List.length_take]
            have : (1 ⊓ pts.length) - 1 = 0 := by omega
            rw [this]
            simp
          rw [List.drop_zero] at h2
          rw [hr1d, List.nil_append] at hyp
          subst hyp
          exact ih _ _ _ h2
        · have hle := splitFarthest_snd_le pts h3
          have he1 := ih _ _ _ h1
          have he2 := ih _ _ _ h2
          have he1' : simplifyFuel (pts.length - 1) (pts.take ((splitFarthest pts).2 + 1)) ε = some r1 := by
            apply simplifyFuel_mono_le _ _ _ _ _ _ he1
            rw [List.length_take]
            omega
          have he2' : simplifyFuel (pts.length - 1) (pts.drop ((splitFarthest pts).2)) ε = some r2 := by
            apply simplifyFuel_mono_le _ _ _ _ _ _ he2
            rw [List.length_drop]
            omega
          obtain ⟨m, hm⟩ : ∃ m, pts.length = m + 1 := ⟨pts.length - 1, by omega⟩
          have hm' : pts.length - 1 = m := by omega
          rw [hm' ] at he1' he2'
          rw [hm, simplifyFuel_succ_of_ge3 m pts ε h3, if_pos hgt, he1', he2']
          exact congrArg some hyp
      · rw [if_neg hgt, Option.some.injEq] at hyp
        subst hyp
        obtain ⟨m, hm⟩ : ∃ m, pts.length = m + 1 := ⟨pts.length - 1, by omega⟩
        rw [hm, simplifyFuel_succ_of_ge3 m pts ε h3, if_neg hgt, hm]

theorem simplifyFuel_idem :
    ∀ (f : ℕ) (pts : List Point) (ε : ℝ) (out : List Point),
      simplifyFuel f pts ε = some out →
      simplifyFuel out.length out ε = some out := by
  intro f
  induction f with
  | zero =>
    intro pts ε out hyp
    by_cases h3 : pts.length < 3
    · rw [simplifyFuel_small 0 pts ε h3, Option.some.injEq] at hyp
      subst hyp
      exact simplifyFuel_small _ _ _ h3
    · simp [simplifyFuel, h3] at hyp
  | succ f ih =>
    intro pts ε out hyp
    have horig := hyp
    by_cases h3 : pts.length < 3
    · rw [simplifyFuel_small (f + 1) pts ε h3, Option.some.injEq] at hyp
      subst hyp
      exact simplifyFuel_small _ _ _ h3
    · have hne : pts ≠ [] := by
        intro hnil
        rw [hnil] at h3
        simp at h3
      rw [simplifyFuel_succ_of_ge3 f pts ε h3] at hyp
      by_cases hgt : (splitFarthest pts).1 > ε
      · rw [if_pos hgt] at hyp
        cases h1 : simplifyFuel f (pts.take ((splitFarthest pts).2 + 1)) ε with
        | none => rw [h1] at hyp; simp at hyp
        | some r1 =>
        cases h2 : simplifyFuel f (pts.drop ((splitFarthest pts).2)) ε with
        | none => rw [h1, h2] at hyp; simp at hyp
        | some r2 =>
        rw [h1, h2] at hyp
        simp only [Option.some.injEq] at hyp
        rcases Nat.eq_zero_or_pos (splitFarthest pts).2 with hz | hpos
        · -- index 0: the result is the second recursive call's result
          rw [hz] at h1 h2
          have htk : (pts.take (0 + 1)).length < 3 := by
            rw [List.length_take]
            omega
          rw [simplifyFuel_small f _ ε htk, Option.some.injEq] at h1
          have hr1d : r1.dropLast = [] := by
            rw [← h1, List.dropLast_eq_take, List.length_take]
            have : (1 ⊓ pts.length) - 1 = 0 := by omega
            rw [this]
            simp
          rw [List.drop_zero] at h2
          rw [hr1d, List.nil_append] at hyp
          subst hyp
          exact ih _ _ _ h2
        · -- index at least 1
          have hle := splitFarthest_snd_le pts h3
          rcases farthestAux_cases (pts.getD 0 pt0) (pts.getD (pts.length - 1) pt0)
              ((pts.drop 1).dropLast) 1 0 0 with heq0 | ⟨k, hk, hk2, hk1, hklt, hkfa⟩
          · exfalso
            have : (splitFarthest pts).2 = 0 := by
              rw [show (splitFarthest pts).2 =
                (farthestAux (pts.getD 0 pt0) (pts.getD (pts.length - 1) pt0)
                  ((pts.drop 1).dropLast) 1 0 0).2 from rfl, heq0]
            omega
          · have hfa1 : (splitFarthest pts).1 =
                (farthestAux (pts.getD 0 pt0) (pts.getD (pts.length - 1) pt0)
                  ((pts.drop 1).dropLast) 1 0 0).1 := rfl
            have hfa2 : (splitFarthest pts).2 =
                (farthestAux (pts.getD 0 pt0) (pts.getD (pts.length - 1) pt0)
                  ((pts.drop 1).dropLast) 1 0 0).2 := rfl
            have hintlen : ((pts.drop 1).dropLast).length = pts.length - 2 := by
              rw [List.length_dropLast, List.length_drop]
              omega
            have hkidx : (splitFarthest pts).2 = 1 + k := by rw [hfa2, hk2]
            have hkval : k = (splitFarthest pts).2 - 1 := by omega
            have hkbound : k < pts.length - 2 := by rw [hintlen] at hk; exact hk
            have hD0 : 0 < (splitFarthest pts).1 := by rw [hfa1]; exact hklt
            have hDval : (splitFarthest pts).1 =
                perpendicularDistance (((pts.drop 1).dropLast).getD k pt0)
                  (pts.getD 0 pt0) (pts.getD (pts.length - 1) pt0) := by
              rw [hfa1, hk1]
            have hDfa : ∀ j < k,
                perpendicularDistance (((pts.drop 1).dropLast).getD j pt0)
                  (pts.getD 0 pt0) (pts.getD (pts.length - 1) pt0) <
                (splitFarthest pts).1 := by
              intro j hj
              rw [hfa1]
              exact hkfa j hj
            obtain ⟨hs1, hh1, hl1, hlen1, hint1⟩ := simplifyFuel_shape f _ ε r1 h1
            obtain ⟨hs2, hh2, hl2, hlen2, hint2⟩ := simplifyFuel_shape f _ ε r2 h2
            obtain ⟨hsO, hhO, hlO, hlenO, hintO⟩ :=
              simplifyFuel_shape (f + 1) pts ε out horig
            have hidem1 := ih _ _ _ h1
            have hidem2 := ih _ _ _ h2
            have hA : (pts.take ((splitFarthest pts).2 + 1)).length =
                (splitFarthest pts).2 + 1 := by
              rw [List.length_take]
              omega
            have hr1len : 2 ≤ r1.length := hlen1 (by omega)
            have hr2len : 2 ≤ r2.length := hlen2 (by rw [List.length_drop]; omega)
            have hr1dne : r1.dropLast ≠ [] := by
              apply List.ne_nil_of_length_pos
              rw [List.length_dropLast]
              omega
            have hr2ne : r2 ≠ [] := List.ne_nil_of_length_pos (by omega)
            subst hyp
            have houtlen : (r1.dropLast ++ r2).length = r1.length - 1 + r2.length := by
              rw [List.length_append, List.length_dropLast]
            have hout3 : ¬ (r1.dropLast ++ r2).length < 3 := by
              rw [houtlen]
              omega
            have houtne : r1.dropLast ++ r2 ≠ [] :=
              List.ne_nil_of_length_pos (by rw [houtlen]; omega)
            -- endpoints of the reassembled list agree with those of `pts`
            have hgd0 : (r1.dropLast ++ r2).getD 0 pt0 = pts.getD 0 pt0 := by
              have hO := hhO
              rw [head?_eq_getD _ houtne, head?_eq_getD _ hne,
                Option.some.injEq] at hO
              exact hO
            have hgdE : (r1.dropLast ++ r2).getD ((r1.dropLast ++ r2).length - 1) pt0 =
                pts.getD (pts.length - 1) pt0 := by
              have hO := hlO
              rw [getLast?_eq_getD _ houtne, getLast?_eq_getD _ hne,
                Option.some.injEq] at hO
              exact hO
            -- the head of the second half is the split point
            have hx : r2.head? = some (pts.getD ((splitFarthest pts).2) pt0) := by
              rw [hh2, List.head?_drop,
                List.getElem?_eq_getElem (show (splitFarthest pts).2 < pts.length by omega),
                getD_eq_getElem_of_lt pts _ (show (splitFarthest pts).2 < pts.length by omega)]
            obtain ⟨t2, ht2⟩ : ∃ t2, r2 = (pts.getD ((splitFarthest pts).2) pt0) :: t2 := by
              cases r2 with
              | nil => cases hx
              | cons a t =>
                rw [List.head?_cons, Option.some.injEq] at hx
                exact ⟨t, by rw [hx]⟩
            have ht2ne : t2 ≠ [] := by
              apply List.ne_nil_of_length_pos
              rw [ht2, List.length_cons] at hr2len
              omega
            -- the farthest-point scan of the reassembled list picks the same
            -- distance and the split point's position
            have hsplit : splitFarthest (r1.dropLast ++ r2) =
                ((splitFarthest pts).1, r1.length - 1) := by
              show farthestAux ((r1.dropLast ++ r2).getD 0 pt0)
                ((r1.dropLast ++ r2).getD ((r1.dropLast ++ r2).length - 1) pt0)
                (((r1.dropLast ++ r2).drop 1).dropLast) 1 0 0 =
                ((splitFarthest pts).1, r1.length - 1)
              rw [hgd0, hgdE]
              have hdecomp : (((r1.dropLast ++ r2).drop 1)).dropLast =
                  (r1.dropLast.drop 1) ++
                    ((pts.getD ((splitFarthest pts).2) pt0) :: t2.dropLast) := by
                rw [drop_one_append _ _ hr1dne, List.dropLast_append_of_ne_nil _ hr2ne,
                  ht2, List.dropLast_cons_of_ne_nil ht2ne]
              rw [hdecomp, farthestAux_append]
              have hu_lt : ∀ q ∈ r1.dropLast.drop 1,
                  perpendicularDistance q (pts.getD 0 pt0)
                    (pts.getD (pts.length - 1) pt0) < (splitFarthest pts).1 := by
                intro q hq
                rw [← dropLast_drop_comm] at hq
                have hq2 := hint1 q hq
                rw [interior_take pts ((splitFarthest pts).2) (by omega)] at hq2
                obtain ⟨j, hjlen, hjval⟩ := List.mem_iff_getElem.1 hq2
                have hjlt : j < (splitFarthest pts).2 - 1 := by
                  rw [List.length_take, List.length_drop] at hjlen
                  omega
                have hjint : j < ((pts.drop 1).dropLast).length := by
                  rw [hintlen]
                  omega
                have hval : ((pts.drop 1).dropLast).getD j pt0 = q := by
                  rw [List.getD_eq_getElem?_getD, List.getElem?_eq_getElem hjint]
                  rw [← hjval, List.getElem_take, List.getElem_dropLast]
                  rfl
                rw [← hval]
                exact hDfa j (by omega)
              have hafter := farthestAux_lt_of_all_lt (pts.getD 0 pt0)
                (pts.getD (pts.length - 1) pt0) (r1.dropLast.drop 1)
                ((splitFarthest pts).1) 1 0 0 hu_lt hD0
              have hdx : perpendicularDistance (pts.getD ((splitFarthest pts).2) pt0)
                  (pts.getD 0 pt0) (pts.getD (pts.length - 1) pt0) =
                  (splitFarthest pts).1 := by
                rw [hDval]
                congr 1
                rw [interior_getD pts k (by omega)]
                congr 1
                omega
              rw [farthestAux, if_pos (by rw [hdx]; exact hafter)]
              have hv_le : ∀ q ∈ t2.dropLast,
                  perpendicularDistance q (pts.getD 0 pt0)
                    (pts.getD (pts.length - 1) pt0) ≤ (splitFarthest pts).1 := by
                intro q hq
                have hqint : q ∈ (r2.drop 1).dropLast := by
                  rw [ht2]
                  simpa using hq
                have hq2 := hint2 q hqint
                rw [interior_drop] at hq2
                have hshift : pts.dropLast.drop ((splitFarthest pts).2 + 1) =
                    (pts.dropLast.drop 1).drop ((splitFarthest pts).2) := by
                  rw [List.drop_drop]
                  congr 1
                  omega
                rw [hshift] at hq2
                have hq3 : q ∈ (pts.drop 1).dropLast := by
                  rw [dropLast_drop_comm]
                  exact List.mem_of_mem_drop hq2
                rw [hfa1]
                exact farthestAux_le _ _ _ 1 0 0 q hq3
              rw [hdx, farthestAux_noupdate _ _ t2.dropLast _ _ _ hv_le]
              rw [Prod.mk.injEq]
              refine ⟨rfl, ?_⟩
              rw [List.length_drop, List.length_dropLast]
              omega
            -- unfold the rerun and rewrite with the computed scan result
            obtain ⟨m, hm⟩ : ∃ m, (r1.dropLast ++ r2).length = m + 1 :=
              ⟨(r1.dropLast ++ r2).length - 1, by omega⟩
            have hm2 : r1.length ≤ m ∧ r2.length ≤ m := by
              rw [houtlen] at hm
              omega
            rw [hm, simplifyFuel_succ_of_ge3 m _ ε hout3, hsplit, if_pos hgt]
            have hxlast : r1.getLast? = some (pts.getD ((splitFarthest pts).2) pt0) := by
              rw [hl1, List.getLast?_eq_getElem?, hA, List.getElem?_take,
                if_pos (by omega : (splitFarthest pts).2 + 1 - 1 < (splitFarthest pts).2 + 1),
                List.getElem?_eq_getElem (show (splitFarthest pts).2 + 1 - 1 < pts.length by omega),
                getD_eq_getElem_of_lt pts _ (show (splitFarthest pts).2 < pts.length by omega)]
              simp
            have hr1ne : r1 ≠ [] := List.ne_nil_of_length_pos (by omega)
            have htake : (r1.dropLast ++ r2).take ((r1.length - 1) + 1) = r1 := by
              have hlen' : (r1.length - 1) + 1 = r1.dropLast.length + 1 := by
                rw [List.length_dropLast]
              rw [hlen', List.take_append, ht2]
              rw [show ((pts.getD ((splitFarthest pts).2) pt0) :: t2).take 1 =
                [pts.getD ((splitFarthest pts).2) pt0] from rfl]
              rw [List.getLast?_eq_getLast r1 hr1ne, Option.some.injEq] at hxlast
              rw [← hxlast, List.dropLast_append_getLast]
            have hdrop : (r1.dropLast ++ r2).drop (r1.length - 1) = r2 := by
              rw [show r1.length - 1 = r1.dropLast.length by rw [List.length_dropLast],
                List.drop_left]
            rw [htake, hdrop]
            have hc1 : simplifyFuel m r1 ε = some r1 :=
              simplifyFuel_mono_le _ _ _ _ _ hm2.1 hidem1
            have hc2 : simplifyFuel m r2 ε = some r2 :=
              simplifyFuel_mono_le _ _ _ _ _ hm2.2 hidem2
            rw [hc1, hc2]
      · rw [if_neg hgt, Option.some.injEq] at hyp
        subst hyp
        exact simplifyFuel_small _ _ _ (by simp)

theorem simplifyContour_isSome (points : List Point) (ε : ℝ) (hε : 0 ≤ ε) :
    ∃ out, simplifyContour points ε = some out :=
  simplifyFuel_isSome points.length points ε hε (by omega)

/-- C7: the simplifier is idempotent — whenever `simplifyContour` produces
an output (the `some` case of the embedding; `none` models divergence of
the source recursion), re-running it with the same epsilon on that output
returns the output unchanged. -/
theorem c7_simplifyContour_idempotent (points : List Point) (epsilon : ℝ)
    (out : List Point) (h : simplifyContour points epsilon = some out) :
    simplifyContour out epsilon = some out :=
  simplifyFuel_idem points.length points epsilon out h

/-- C10: the simplifier's output is a subsequence of its (nonempty) input
that keeps the input's first and last points. -/
theorem c10_simplifyContour_subsequence (points : List Point) (epsilon : ℝ)
    (out : List Point) (hne : points ≠ [])
    (h : simplifyContour points epsilon = some out) :
    out.Sublist points ∧ out.head? = points.head? ∧
      out.getLast? = points.getLast? := by
  obtain ⟨hs, hh, hl, _, _⟩ :=
    simplifyFuel_shape points.length points epsilon out h
  exact ⟨hs, hh, hl⟩

theorem perp_midpoint_eval (a : ℝ) (ha : 0 < a) :
    perpendicularDistance ⟨a, 0⟩ ⟨0, 0⟩ ⟨2 * a, 0⟩ = 0 := by
  simp only [perpendicularDistance]
  rw [if_neg (by intro hc; have := hc.1; linarith)]
  have ht : ((a - 0) * (2 * a - 0) + (0 - 0) * (0 - 0)) /
      ((2 * a - 0) * (2 * a - 0) + (0 - 0) * (0 - 0)) = 1 / 2 := by
    field_simp
    ring
  rw [ht]
  rw [if_neg (by norm_num), if_neg (by norm_num), if_neg (by norm_num),
    if_neg (by norm_num)]
  have : (a - (0 + 1 / 2 * (2 * a - 0))) * (a - (0 + 1 / 2 * (2 * a - 0))) +
      (0 - (0 + 1 / 2 * (0 - 0))) * (0 - (0 + 1 / 2 * (0 - 0))) = 0 := by ring
  rw [this, Real.sqrt_zero]

theorem c7_witness_eval :
    simplifyContour [⟨0, 0⟩, ⟨1, 0⟩, ⟨2, 0⟩] 1 = some [⟨0, 0⟩, ⟨2, 0⟩] := by
  have hperp : perpendicularDistance ⟨1, 0⟩ ⟨0, 0⟩ ⟨2, 0⟩ = 0 := by
    have := perp_midpoint_eval 1 (by norm_num)
    norm_num at this
    exact this
  have hg0 : ([⟨0, 0⟩, ⟨1, 0⟩, ⟨2, 0⟩] : List Point).getD 0 pt0 = ⟨0, 0⟩ := rfl
  have hgE : ([⟨0, 0⟩, ⟨1, 0⟩, ⟨2, 0⟩] : List Point).getD
      (([⟨0, 0⟩, ⟨1, 0⟩, ⟨2, 0⟩] : List Point).length - 1) pt0 = ⟨2, 0⟩ := rfl
  have hsf : splitFarthest ([⟨0, 0⟩, ⟨1, 0⟩, ⟨2, 0⟩] : List Point) = (0, 0) := by
    show farthestAux _ _ [⟨1, 0⟩] 1 0 0 = (0, 0)
    rw [farthestAux, hg0, hgE, hperp, if_neg (lt_irrefl 0)]
    rfl
  show simplifyFuel 3 _ 1 = _
  rw [simplifyFuel_succ_of_ge3 2 _ 1 (by simp), hsf, if_neg (by norm_num), hg0, hgE]

/-- C7 witness: a concrete run — simplifying the three collinear points
(0,0), (1,0), (2,0) with epsilon 1 yields the segment endpoints, and
re-running the simplifier on that output returns it unchanged. -/
theorem c7_simplifyContour_idempotent_witness :
    simplifyContour [⟨0, 0⟩, ⟨1, 0⟩, ⟨2, 0⟩] 1 = some [⟨0, 0⟩, ⟨2, 0⟩] ∧
      simplifyContour [(⟨0, 0⟩ : Point), ⟨2, 0⟩] 1 = some [⟨0, 0⟩, ⟨2, 0⟩] :=
  ⟨c7_witness_eval, c7_simplifyContour_idempotent _ _ _ c7_witness_eval⟩

theorem c10_witness_eval :
    simplifyContour [⟨0, 0⟩, ⟨3, 0⟩, ⟨6, 0⟩] 2 = some [⟨0, 0⟩, ⟨6, 0⟩] := by
  have hperp : perpendicularDistance ⟨3, 0⟩ ⟨0, 0⟩ ⟨6, 0⟩ = 0 := by
    have := perp_midpoint_eval 3 (by norm_num)
    norm_num at this
    exact this
  have hg0 : ([⟨0, 0⟩, ⟨3, 0⟩, ⟨6, 0⟩] : List Point).getD 0 pt0 = ⟨0, 0⟩ := rfl
  have hgE : ([⟨0, 0⟩, ⟨3, 0⟩, ⟨6, 0⟩] : List Point).getD
      (([⟨0, 0⟩, ⟨3, 0⟩, ⟨6, 0⟩] : List Point).length - 1) pt0 = ⟨6, 0⟩ := rfl
  have hsf : splitFarthest ([⟨0, 0⟩, ⟨3, 0⟩, ⟨6, 0⟩] : List Point) = (0, 0) := by
    show farthestAux _ _ [⟨3, 0⟩] 1 0 0 = (0, 0)
    rw [farthestAux, hg0, hgE, hperp, if_neg (lt_irrefl 0)]
    rfl
  show simplifyFuel 3 _ 2 = _
  rw [simplifyFuel_succ_of_ge3 2 _ 2 (by simp), hsf, if_neg (by norm_num), hg0, hgE]

/-- C10 witness: for the concrete nonempty input `(0,0), (3,0), (6,0)` with
epsilon 2 the simplifier returns `[(0,0), (6,0)]`, which is a subsequence of
the input keeping its first and last points. -/
theorem c10_simplifyContour_subsequence_witness :
    ([⟨0, 0⟩, ⟨3, 0⟩, ⟨6, 0⟩] : List Point) ≠ [] ∧
      simplifyContour [⟨0, 0⟩, ⟨3, 0⟩, ⟨6, 0⟩] 2 = some [⟨0, 0⟩, ⟨6, 0⟩] ∧
      (([⟨0, 0⟩, ⟨6, 0⟩] : List Point).Sublist [⟨0, 0⟩, ⟨3, 0⟩, ⟨6, 0⟩] ∧
        ([(⟨0, 0⟩ : Point), ⟨6, 0⟩] : List Point).head? =
          ([⟨0, 0⟩, ⟨3, 0⟩, ⟨6, 0⟩] : List Point).head? ∧
        ([(⟨0, 0⟩ : Point), ⟨6, 0⟩] : List Point).getLast? =
          ([⟨0, 0⟩, ⟨3, 0⟩, ⟨6, 0⟩] : List Point).getLast?) :=
  ⟨by simp, c10_witness_eval,
    c10_simplifyContour_subsequence _ _ _ (by simp) c10_witness_eval⟩

/-! ### Lemmas about `calculateMetrics` -/

theorem calculateMetrics_area (c : List Point) :
    (calculateMetrics c).area = |shoelaceSum c / 2| := by
  cases c <;> simp [calculateMetrics, shoelaceSum]

theorem calculateMetrics_perimeter (c : List Point) :
    (calculateMetrics c).perimeter = perimeterSum c := by
  cases c <;> simp [calculateMetrics, perimeterSum]

theorem getD_map_lt (f : Point → Point) (c : List Point) (i : ℕ)
    (h : i < c.length) (d : Point) : (c.map f).getD i d = f (c.getD i d) := by
  rw [List.getD_eq_getElem?_getD, List.getD_eq_getElem?_getD, List.getElem?_map,
    List.getElem?_eq_getElem h]
  rfl

theorem sum_cycle_shift (f : ℕ → ℝ) (n : ℕ) :
    ∑ i ∈ Finset.range n, f ((i + 1) % n) = ∑ i ∈ Finset.range n, f i := by
  cases n with
  | zero => simp
  | succ m =>
    rw [Finset.sum_range_succ, Finset.sum_range_succ' (fun i => f i) m]
    have h1 : ∀ i ∈ Finset.range m, f ((i + 1) % (m + 1)) = f (i + 1) := by
      intro i hi
      rw [Finset.mem_range] at hi
      rw [Nat.mod_eq_of_lt (by omega)]
    rw [Finset.sum_congr rfl h1, Nat.mod_self]

theorem shoelaceSum_translate (c : List Point) (a b : ℝ) :
    shoelaceSum (c.map fun p => ⟨p.x + a, p.y + b⟩) = shoelaceSum c := by
  unfold shoelaceSum
  rw [List.length_map]
  cases hn : c.length with
  | zero => simp
  | succ m =>
    have hlen : c.length = m + 1 := hn
    have hmem : ∀ i ∈ Finset.range (m + 1), i < c.length ∧ (i + 1) % (m + 1) < c.length := by
      intro i hi
      rw [Finset.mem_range] at hi
      exact ⟨by omega, by rw [hlen]; exact Nat.mod_lt _ (by omega)⟩
    have hcongr : ∀ i ∈ Finset.range (m + 1),
        ((c.map fun p => Point.mk (p.x + a) (p.y + b)).getD i pt0).x *
          ((c.map fun p => Point.mk (p.x + a) (p.y + b)).getD ((i + 1) % (m + 1)) pt0).y -
          ((c.map fun p => Point.mk (p.x + a) (p.y + b)).getD ((i + 1) % (m + 1)) pt0).x *
          ((c.map fun p => Point.mk (p.x + a) (p.y + b)).getD i pt0).y =
        ((c.getD i pt0).x * (c.getD ((i + 1) % (m + 1)) pt0).y -
          (c.getD ((i + 1) % (m + 1)) pt0).x * (c.getD i pt0).y) +
        (a * ((c.getD ((i + 1) % (m + 1)) pt0).y - (c.getD i pt0).y) +
          b * ((c.getD i pt0).x - (c.getD ((i + 1) % (m + 1)) pt0).x)) := by
      intro i hi
      rw [getD_map_lt _ _ _ (hmem i hi).1, getD_map_lt _ _ _ (hmem i hi).2]
      ring
    rw [Finset.sum_congr rfl hcongr, Finset.sum_add_distrib]
    have hS : ∑ i ∈ Finset.range (m + 1),
        (a * ((c.getD ((i + 1) % (m + 1)) pt0).y - (c.getD i pt0).y) +
          b * ((c.getD i pt0).x - (c.getD ((i + 1) % (m + 1)) pt0).x)) = 0 := by
      rw [Finset.sum_add_distrib, ← Finset.mul_sum, ← Finset.mul_sum,
        Finset.sum_sub_distrib, Finset.sum_sub_distrib,
        sum_cycle_shift (fun j => (c.getD j pt0).y) (m + 1),
        sum_cycle_shift (fun j => (c.getD j pt0).x) (m + 1)]
      ring
    rw [hS, add_zero]

theorem shoelaceSum_scale (c : List Point) (k : ℝ) :
    shoelaceSum (c.map fun p => ⟨k * p.x, k * p.y⟩) = k ^ 2 * shoelaceSum c := by
  unfold shoelaceSum
  rw [List.length_map, Finset.mul_sum]
  refine Finset.sum_congr rfl ?_
  intro i hi
  rw [Finset.mem_range] at hi
  have h1 : i < c.length := hi
  have h2 : (i + 1) % c.length < c.length := Nat.mod_lt _ (by omega)
  rw [getD_map_lt _ _ _ h1, getD_map_lt _ _ _ h2]
  ring

theorem perimeterSum_scale (c : List Point) (k : ℝ) :
    perimeterSum (c.map fun p => ⟨k * p.x, k * p.y⟩) = |k| * perimeterSum c := by
  unfold perimeterSum
  rw [List.length_map, Finset.mul_sum]
  refine Finset.sum_congr rfl ?_
  intro i hi
  rw [Finset.mem_range] at hi
  have h1 : i < c.length := hi
  have h2 : (i + 1) % c.length < c.length := Nat.mod_lt _ (by omega)
  rw [getD_map_lt _ _ _ h1, getD_map_lt _ _ _ h2]
  have harg : ((k * (c.getD ((i + 1) % c.length) pt0).x) - k * (c.getD i pt0).x) ^ 2 +
      ((k * (c.getD ((i + 1) % c.length) pt0).y) - k * (c.getD i pt0).y) ^ 2 =
      k ^ 2 * (((c.getD ((i + 1) % c.length) pt0).x - (c.getD i pt0).x) ^ 2 +
        ((c.getD ((i + 1) % c.length) pt0).y - (c.getD i pt0).y) ^ 2) := by ring
  rw [harg, Real.sqrt_mul (sq_nonneg k), Real.sqrt_sq_eq_abs]

/-- C9: `calculateMetrics` on the empty contour returns all-zero metrics
(area 0, perimeter 0, zero bounding box, centre the origin) rather than an
error. -/
theorem c9_calculateMetrics_empty :
    calculateMetrics [] =
      { area := 0, perimeter := 0
        boundingBox := { x := 0, y := 0, width := 0, height := 0 }
        center := ⟨0, 0⟩ } := rfl

/-- C8 (amended): the shoelace area of `calculateMetrics` is invariant
under translating every point by a fixed offset, and scaling every point
by a factor `k` scales the area by `k^2` and the perimeter by `|k|` (hence
by `k` for every nonnegative `k`). -/
theorem c8_metrics_translation_scaling (c : List Point) (t : Point) (k : ℝ) :
    (calculateMetrics (c.map fun p => ⟨p.x + t.x, p.y + t.y⟩)).area =
      (calculateMetrics c).area ∧
    (calculateMetrics (c.map fun p => ⟨k * p.x, k * p.y⟩)).area =
      k ^ 2 * (calculateMetrics c).area ∧
    (calculateMetrics (c.map fun p => ⟨k * p.x, k * p.y⟩)).perimeter =
      |k| * (calculateMetrics c).perimeter := by
  refine ⟨?_, ?_, ?_⟩
  · rw [calculateMetrics_area, calculateMetrics_area, shoelaceSum_translate]
  · rw [calculateMetrics_area, calculateMetrics_area, shoelaceSum_scale]
    rw [mul_div_assoc, abs_mul, abs_of_nonneg (sq_nonneg k)]
  · rw [calculateMetrics_perimeter, calculateMetrics_perimeter, perimeterSum_scale]

/-- C8 counterexample: scaling by the factor `k = -1` does not scale the
perimeter by `k` (it scales it by `|k|`): for the contour
`[(0,0), (1,0)]` the scaled perimeter is `2`, not `-2`. -/
theorem c8_counterexample :
    ¬ ((calculateMetrics (([⟨0, 0⟩, ⟨1, 0⟩] : List Point).map
          fun p => ⟨(-1 : ℝ) * p.x, (-1 : ℝ) * p.y⟩)).perimeter =
        (-1 : ℝ) * (calculateMetrics ([⟨0, 0⟩, ⟨1, 0⟩] : List Point)).perimeter) := by
  have h1 : (calculateMetrics ([⟨0, 0⟩, ⟨1, 0⟩] : List Point)).perimeter = 2 := by
    rw [calculateMetrics_perimeter]
    unfold perimeterSum
    norm_num [Finset.sum_range_succ, List.getD]
  have h2 : (calculateMetrics (([⟨0, 0⟩, ⟨1, 0⟩] : List Point).map
      fun p => ⟨(-1 : ℝ) * p.x, (-1 : ℝ) * p.y⟩)).perimeter = 2 := by
    rw [calculateMetrics_perimeter]
    unfold perimeterSum
    norm_num [Finset.sum_range_succ, List.getD]
  rw [h1, h2]
  norm_num

/-! ### Lemmas about `classifyShape` -/

theorem perimeterSum_nonneg (c : List Point) : 0 ≤ perimeterSum c :=
  Finset.sum_nonneg (fun _ _ => Real.sqrt_nonneg _)

theorem calculateMetrics_perimeter_nonneg (c : List Point) :
    0 ≤ (calculateMetrics c).perimeter := by
  rw [calculateMetrics_perimeter]
  exact perimeterSum_nonneg c

/-- C4: whenever the circularity score exceeds 0.80 the classifier returns
a circle with confidence `min(circularity, 0.99)` immediately; the result
does not depend on any of the later tests (solidity, simplification,
vertex count, aspect ratio, decision table), which are never reached. -/
theorem c4_classifyShape_circle (contour : List Point) (metrics : Metrics)
    (hper : 0 < metrics.perimeter) (hc : circularityOf metrics > 0.80) :
    classifyShape contour metrics =
      some (some (mkShape .circle (min (circularityOf metrics) 0.99) metrics)) := by
  unfold classifyShape
  rw [if_pos hc]

/-- C4 witness: a contour with area 1 and perimeter 2 has circularity
`π > 0.80` and is classified as a circle with confidence
`min(π, 0.99) = 0.99`. -/
theorem c4_classifyShape_circle_witness :
    (0 : ℝ) < c4Metrics.perimeter ∧ circularityOf c4Metrics > 0.80 ∧
      classifyShape [] c4Metrics =
        some (some (mkShape .circle (min (circularityOf c4Metrics) 0.99) c4Metrics)) := by
  have hper : (0 : ℝ) < c4Metrics.perimeter := by norm_num [c4Metrics]
  have hc : circularityOf c4Metrics > 0.80 := by
    have hpi := Real.pi_gt_three
    rw [show circularityOf c4Metrics = Real.pi by
      rw [circularityOf]
      norm_num [c4Metrics]]
    linarith
  exact ⟨hper, hc, c4_classifyShape_circle [] c4Metrics hper hc⟩

/-- C5: for every contour that is not classified as a circle, if the
mathematical bounding-box ratio `max(width/height, height/width)` exceeds
5.0 — or the box is degenerate (zero width or height) with its other
dimension exceeding 5.0, which is how an elongated degenerate box renders
under the source's `height || 1` / `width || 1` guards — then the
classifier rejects the contour and returns no shape. -/
theorem c5_classifyShape_aspect_reject (c : List Point)
    (h1 : ¬ circularityOf (calculateMetrics c) > 0.80)
    (h2 : max ((calculateMetrics c).boundingBox.width /
            (calculateMetrics c).boundingBox.height)
          ((calculateMetrics c).boundingBox.height /
            (calculateMetrics c).boundingBox.width) > 5.0 ∨
        (((calculateMetrics c).boundingBox.width = 0 ∨
            (calculateMetrics c).boundingBox.height = 0) ∧
          max (calculateMetrics c).boundingBox.width
            (calculateMetrics c).boundingBox.height > 5.0)) :
    classifyShape c (calculateMetrics c) = some none := by
  have hasp : aspectRatioOf (calculateMetrics c) > 5.0 := by
    rcases h2 with hm | ⟨hz, hmax⟩
    · by_cases hw : (calculateMetrics c).boundingBox.width = 0
      · rw [hw] at hm
        simp at hm
        norm_num at hm
      · by_cases hh : (calculateMetrics c).boundingBox.height = 0
        · rw [hh] at hm
          simp at hm
          norm_num at hm
        · rw [aspectRatioOf, if_neg hh, if_neg hw]
          exact hm
    · rcases hz with hw | hh
      · have hgt : (calculateMetrics c).boundingBox.height > 5.0 := by
          rw [hw] at hmax
          rcases max_cases (0 : ℝ) (calculateMetrics c).boundingBox.height with
            ⟨hcase, _⟩ | ⟨hcase, _⟩ <;> rw [hcase] at hmax
          · norm_num at hmax
          · exact hmax
        rw [aspectRatioOf, if_pos hw]
        calc (5.0 : ℝ) < (calculateMetrics c).boundingBox.height / 1 := by
              rw [div_one]; exact hgt
          _ ≤ _ := le_max_right _ _
      · have hgt : (calculateMetrics c).boundingBox.width > 5.0 := by
          rw [hh] at hmax
          rcases max_cases (calculateMetrics c).boundingBox.width (0 : ℝ) with
            ⟨hcase, _⟩ | ⟨hcase, _⟩ <;> rw [hcase] at hmax
          · exact hmax
          · norm_num at hmax
        rw [aspectRatioOf, if_pos hh]
        calc (5.0 : ℝ) < (calculateMetrics c).boundingBox.width / 1 := by
              rw [div_one]; exact hgt
          _ ≤ _ := le_max_left _ _
  obtain ⟨verts, hverts⟩ := simplifyContour_isSome c
    (0.06 * (calculateMetrics c).perimeter)
    (mul_nonneg (by norm_num) (calculateMetrics_perimeter_nonneg c))
  simp only [classifyShape]
  rw [if_neg h1, hverts]
  simp only
  rw [if_pos hasp]

/-- C5 witness: the degenerate two-point contour `(0,0), (12,0)` has a
bounding box of width 12 and height 0; it is not circle-like and the
classifier returns no shape for it. -/
theorem c5_classifyShape_aspect_reject_witness :
    ¬ circularityOf (calculateMetrics c5Contour) > 0.80 ∧
      ((calculateMetrics c5Contour).boundingBox.width = 0 ∨
        (calculateMetrics c5Contour).boundingBox.height = 0) ∧
      max (calculateMetrics c5Contour).boundingBox.width
        (calculateMetrics c5Contour).boundingBox.height > 5.0 ∧
      classifyShape c5Contour (calculateMetrics c5Contour) = some none := by
  have harea : (calculateMetrics c5Contour).area = 0 := by
    rw [calculateMetrics_area]
    rw [show shoelaceSum c5Contour = 0 by
      unfold shoelaceSum c5Contour
      norm_num [Finset.sum_range_succ, List.getD]]
    norm_num
  have hcirc : ¬ circularityOf (calculateMetrics c5Contour) > 0.80 := by
    rw [circularityOf, harea]
    norm_num
  have hbbw : (calculateMetrics c5Contour).boundingBox.width = 12 := by
    show (calculateMetrics [⟨0, 0⟩, ⟨12, 0⟩]).boundingBox.width = 12
    simp only [calculateMetrics, List.foldl]
    norm_num [max_def, min_def]
  have hbbh : (calculateMetrics c5Contour).boundingBox.height = 0 := by
    show (calculateMetrics [⟨0, 0⟩, ⟨12, 0⟩]).boundingBox.height = 0
    simp only [calculateMetrics, List.foldl]
    norm_num [max_def, min_def]
  have hmax : max (calculateMetrics c5Contour).boundingBox.width
      (calculateMetrics c5Contour).boundingBox.height > 5.0 := by
    rw [hbbw, hbbh]
    norm_num [max_def]
  exact ⟨hcirc, Or.inr hbbh, hmax,
    c5_classifyShape_aspect_reject c5Contour hcirc (Or.inr ⟨Or.inr hbbh, hmax⟩)⟩

theorem decision_table_eq (n : ℕ) (s : ℝ) (m : Metrics) :
    (if n = 3 then
      (if s > 0.9 then some (mkShape .triangle 0.90 m) else none)
    else if n = 4 then
      (if s > 0.9 then some (mkShape .rectangle 0.92 m) else none)
    else if n = 5 then
      (if s > 0.8 then some (mkShape .pentagon 0.88 m)
       else if s > 0.3 then some (mkShape .star 0.82 m)
       else none)
    else if n = 10 then
      (if s < 0.8 then some (mkShape .star 0.82 m) else none)
    else none) =
    (if n = 3 ∧ s > 0.9 then some (mkShape .triangle 0.90 m)
     else if n = 4 ∧ s > 0.9 then some (mkShape .rectangle 0.92 m)
     else if n = 5 ∧ s > 0.8 then some (mkShape .pentagon 0.88 m)
     else if n = 5 ∧ 0.3 < s ∧ s ≤ 0.8 then some (mkShape .star 0.82 m)
     else if n = 10 ∧ s < 0.8 then some (mkShape .star 0.82 m)
     else none) := by
  by_cases h3 : n = 3
  · subst h3
    by_cases h9 : s > 0.9 <;> simp [h9]
  · by_cases h4 : n = 4
    · subst h4
      by_cases h9 : s > 0.9 <;> simp [h9]
    · by_cases h5 : n = 5
      · subst h5
        by_cases h8 : s > 0.8
        · simp [h8]
        · by_cases h03 : s > 0.3
          · simp [h8, h03, le_of_not_lt h8]
          · simp [h8, h03]
      · by_cases h10 : n = 10
        · subst h10
          by_cases h8 : s < 0.8 <;> simp [h8]
        · simp [h3, h4, h5, h10]

/-- C1: for every contour that reaches the classifier's final step (the
circularity test did not fire and the aspect-ratio rejection did not fire,
with `vertices` the simplifier's output), the result is exactly the
decision table keyed on the corrected vertex count and the solidity:
triangle 0.90 at count 3 with solidity above 0.9, rectangle 0.92 at count 4
with solidity above 0.9, pentagon 0.88 at count 5 with solidity above 0.8,
star 0.82 at count 5 with solidity in (0.3, 0.8], star 0.82 at count 10
with solidity below 0.8, and no shape for every other combination. -/
theorem c1_classifyShape_decision_table (contour : List Point)
    (metrics : Metrics) (vertices : List Point)
    (hv : simplifyContour contour (0.06 * metrics.perimeter) = some vertices)
    (h1 : ¬ circularityOf metrics > 0.80)
    (h2 : ¬ aspectRatioOf metrics > 5.0) :
    classifyShape contour metrics =
      some (if correctedVertexCount vertices = 3 ∧
              solidityOf contour metrics > 0.9 then
              some (mkShape .triangle 0.90 metrics)
            else if correctedVertexCount vertices = 4 ∧
              solidityOf contour metrics > 0.9 then
              some (mkShape .rectangle 0.92 metrics)
            else if correctedVertexCount vertices = 5 ∧
              solidityOf contour metrics > 0.8 then
              some (mkShape .pentagon 0.88 metrics)
            else if correctedVertexCount vertices = 5 ∧
              0.3 < solidityOf contour metrics ∧
              solidityOf contour metrics ≤ 0.8 then
              some (mkShape .star 0.82 metrics)
            else if correctedVertexCount vertices = 10 ∧
              solidityOf contour metrics < 0.8 then
              some (mkShape .star 0.82 metrics)
            else none) := by
  simp only [classifyShape]
  rw [if_neg h1, hv]
  simp only
  rw [if_neg h2]
  exact congrArg some
    (decision_table_eq (correctedVertexCount vertices)
      (solidityOf contour metrics) metrics)

/-- C1 witness: a two-point contour with metrics of circularity 0 and
aspect ratio 3 reaches the decision table, whose value the theorem
instance gives for its corrected vertex count and solidity. -/
theorem c1_classifyShape_decision_table_witness :
    simplifyContour c1Contour (0.06 * c1Metrics.perimeter) = some c1Contour ∧
      ¬ circularityOf c1Metrics > 0.80 ∧ ¬ aspectRatioOf c1Metrics > 5.0 ∧
      classifyShape c1Contour c1Metrics =
        some (if correctedVertexCount c1Contour = 3 ∧
                solidityOf c1Contour c1Metrics > 0.9 then
                some (mkShape .triangle 0.90 c1Metrics)
              else if correctedVertexCount c1Contour = 4 ∧
                solidityOf c1Contour c1Metrics > 0.9 then
                some (mkShape .rectangle 0.92 c1Metrics)
              else if correctedVertexCount c1Contour = 5 ∧
                solidityOf c1Contour c1Metrics > 0.8 then
                some (mkShape .pentagon 0.88 c1Metrics)
              else if correctedVertexCount c1Contour = 5 ∧
                0.3 < solidityOf c1Contour c1Metrics ∧
                solidityOf c1Contour c1Metrics ≤ 0.8 then
                some (mkShape .star 0.82 c1Metrics)
              else if correctedVertexCount c1Contour = 10 ∧
                solidityOf c1Contour c1Metrics < 0.8 then
                some (mkShape .star 0.82 c1Metrics)
              else none) := by
  have hv : simplifyContour c1Contour (0.06 * c1Metrics.perimeter) =
      some c1Contour :=
    simplifyFuel_small c1Contour.length c1Contour _ (by simp [c1Contour])
  have h1 : ¬ circularityOf c1Metrics > 0.80 := by
    simp only [circularityOf, c1Metrics]
    norm_num
  have h2 : ¬ aspectRatioOf c1Metrics > 5.0 := by
    simp only [aspectRatioOf, c1Metrics]
    norm_num [max_def]
  exact ⟨hv, h1, h2,
    c1_classifyShape_decision_table c1Contour c1Metrics c1Contour hv h1 h2⟩

/-! ### Lemmas about the contour filter of `analyzeContours` (C3) -/

theorem c3A_area : (calculateMetrics c3A).area = 60 := by
  rw [calculateMetrics_area]
  rw [show shoelaceSum c3A = 120 by
    unfold shoelaceSum
    rw [show c3A.length = 4 from rfl, Finset.sum_range_succ, Finset.sum_range_succ,
      Finset.sum_range_succ, Finset.sum_range_succ, Finset.sum_range_zero]
    norm_num [show c3A[0]? = some ((⟨-5, -3⟩ : Point)) from rfl,
      show c3A[1]? = some ((⟨5, -3⟩ : Point)) from rfl,
      show c3A[2]? = some ((⟨5, 3⟩ : Point)) from rfl,
      show c3A[3]? = some ((⟨-5, 3⟩ : Point)) from rfl]]
  norm_num

theorem c3B_area : (calculateMetrics c3B).area = 70 := by
  rw [calculateMetrics_area]
  rw [show shoelaceSum c3B = 140 by
    unfold shoelaceSum
    rw [show c3B.length = 4 from rfl, Finset.sum_range_succ, Finset.sum_range_succ,
      Finset.sum_range_succ, Finset.sum_range_succ, Finset.sum_range_zero]
    norm_num [show c3B[0]? = some ((⟨5, -3.5⟩ : Point)) from rfl,
      show c3B[1]? = some ((⟨15, -3.5⟩ : Point)) from rfl,
      show c3B[2]? = some ((⟨15, 3.5⟩ : Point)) from rfl,
      show c3B[3]? = some ((⟨5, 3.5⟩ : Point)) from rfl]]
  norm_num

theorem c3C_area : (calculateMetrics c3C).area = 80 := by
  rw [calculateMetrics_area]
  rw [show shoelaceSum c3C = 160 by
    unfold shoelaceSum
    rw [show c3C.length = 4 from rfl, Finset.sum_range_succ, Finset.sum_range_succ,
      Finset.sum_range_succ, Finset.sum_range_succ, Finset.sum_range_zero]
    norm_num [show c3C[0]? = some ((⟨15, -4⟩ : Point)) from rfl,
      show c3C[1]? = some ((⟨25, -4⟩ : Point)) from rfl,
      show c3C[2]? = some ((⟨25, 4⟩ : Point)) from rfl,
      show c3C[3]? = some ((⟨15, 4⟩ : Point)) from rfl]]
  norm_num

theorem c3A_center : (calculateMetrics c3A).center = ⟨0, 0⟩ := by
  show (calculateMetrics [⟨-5, -3⟩, ⟨5, -3⟩, ⟨5, 3⟩, ⟨-5, 3⟩]).center = ⟨0, 0⟩
  simp only [calculateMetrics, List.map, List.sum_cons, List.sum_nil,
    List.length_cons, List.length_nil]
  norm_num

theorem c3B_center : (calculateMetrics c3B).center = ⟨10, 0⟩ := by
  show (calculateMetrics [⟨5, -3.5⟩, ⟨15, -3.5⟩, ⟨15, 3.5⟩, ⟨5, 3.5⟩]).center =
    ⟨10, 0⟩
  simp only [calculateMetrics, List.map, List.sum_cons, List.sum_nil,
    List.length_cons, List.length_nil]
  norm_num

theorem c3C_center : (calculateMetrics c3C).center = ⟨20, 0⟩ := by
  show (calculateMetrics [⟨15, -4⟩, ⟨25, -4⟩, ⟨25, 4⟩, ⟨15, 4⟩]).center = ⟨20, 0⟩
  simp only [calculateMetrics, List.map, List.sum_cons, List.sum_nil,
    List.length_cons, List.length_nil]
  norm_num

theorem c3_distAB :
    centerDist (calculateMetrics c3A) (calculateMetrics c3B) < 15 := by
  rw [centerDist, c3A_center, c3B_center]
  rw [show ((⟨0, 0⟩ : Point).x - (⟨10, 0⟩ : Point).x) ^ 2 +
      ((⟨0, 0⟩ : Point).y - (⟨10, 0⟩ : Point).y) ^ 2 = 10 ^ 2 by norm_num]
  rw [Real.sqrt_sq (by norm_num)]
  norm_num

theorem c3_distBC :
    centerDist (calculateMetrics c3B) (calculateMetrics c3C) < 15 := by
  rw [centerDist, c3B_center, c3C_center]
  rw [show ((⟨10, 0⟩ : Point).x - (⟨20, 0⟩ : Point).x) ^ 2 +
      ((⟨10, 0⟩ : Point).y - (⟨20, 0⟩ : Point).y) ^ 2 = 10 ^ 2 by norm_num]
  rw [Real.sqrt_sq (by norm_num)]
  norm_num

theorem isInnerAt_iff (l : List CM) (i : ℕ) (cm : CM) :
    isInnerAt l i cm ↔
      ∃ j cm2, l[j]? = some cm2 ∧ j ≠ i ∧
        centerDist cm.metrics cm2.metrics < 15 ∧
        cm2.metrics.area > cm.metrics.area := by
  unfold isInnerAt
  constructor
  · rintro ⟨⟨j, cm2⟩, hmem, hne, hdist, harea⟩
    exact ⟨j, cm2, List.mem_enum_iff_getElem?.1 hmem, hne, hdist, harea⟩
  · rintro ⟨j, cm2, hget, hne, hdist, harea⟩
    exact ⟨(j, cm2), List.mem_enum_iff_getElem?.2 hget, hne, hdist, harea⟩

theorem outerAux_sublist (l : List CM) :
    ∀ en : List (ℕ × CM), (outerAux l en).Sublist (en.map Prod.snd) := by
  intro en
  induction en with
  | nil => simp [outerAux]
  | cons p rest ih =>
    obtain ⟨i, cm⟩ := p
    rw [outerAux]
    split_ifs with hin
    · exact ih.cons cm
    · exact ih.cons₂ cm

theorem outerAux_mem (l : List CM) :
    ∀ (en : List (ℕ × CM)) (cm : CM),
      cm ∈ outerAux l en ↔ ∃ i, (i, cm) ∈ en ∧ ¬ isInnerAt l i cm := by
  intro en
  induction en with
  | nil => intro cm; simp [outerAux]
  | cons p rest ih =>
    obtain ⟨j, cm'⟩ := p
    intro cm
    rw [outerAux]
    split_ifs with hin
    · rw [ih]
      constructor
      · rintro ⟨i, hmem, hni⟩
        exact ⟨i, List.mem_cons_of_mem _ hmem, hni⟩
      · rintro ⟨i, hmem, hni⟩
        rcases List.mem_cons.1 hmem with hhead | htail
        · exfalso
          rw [Prod.mk.injEq] at hhead
          obtain ⟨hij, hcc⟩ := hhead
          subst hij
          subst hcc
          exact hni hin
        · exact ⟨i, htail, hni⟩
    · rw [List.mem_cons]
      constructor
      · rintro (heq | hmem)
        · exact ⟨j, by rw [heq]; exact List.mem_cons_self _ _, by rw [heq]; exact hin⟩
        · obtain ⟨i, hmem2, hni⟩ := (ih cm).1 hmem
          exact ⟨i, List.mem_cons_of_mem _ hmem2, hni⟩
      · rintro ⟨i, hmem, hni⟩
        rcases List.mem_cons.1 hmem with hhead | htail
        · left
          rw [Prod.mk.injEq] at hhead
          exact hhead.2
        · right
          exact (ih cm).2 ⟨i, htail, hni⟩

/-- C3 (amended): after the duplicate/nested-resolution pass, a contour
survives exactly when no other contour in the list has its centre within 15
units and a strictly larger area; survivors keep the original discovery
order (the output is a sublist of the input).  In particular the smaller of
a close pair is always discarded, but the larger of the pair may also be
discarded (because of a third, still larger contour near it), and close
pairs of equal area both survive. -/
theorem c3_duplicate_filter_characterization (l : List CM) :
    (outerContoursMetrics l).Sublist l ∧
      ∀ cm : CM, cm ∈ outerContoursMetrics l ↔
        ∃ i, l[i]? = some cm ∧
          ¬ ∃ j : ℕ, ∃ cm2 : CM, l[j]? = some cm2 ∧ j ≠ i ∧
            centerDist cm.metrics cm2.metrics < 15 ∧
            cm2.metrics.area > cm.metrics.area := by
  constructor
  · have h := outerAux_sublist l l.enum
    rwa [List.enum_map_snd] at h
  · intro cm
    rw [show outerContoursMetrics l = outerAux l l.enum from rfl, outerAux_mem]
    refine exists_congr fun i => ?_
    rw [List.mem_enum_iff_getElem?, isInnerAt_iff]

/-- C3 counterexample: three rectangles A, B, C in a chain — centres
(0,0), (10,0), (20,0) and areas 60, 70, 80.  A and B have centres within
15 units of each other and both survive noise rejection, yet neither of
them survives the duplicate-resolution pass (B is discarded because of the
still larger C near it, A because of B): only C is returned, so it is not
the case that exactly one of the pair (A, B) — the larger B — survives. -/
theorem c3_counterexample :
    centerDist (calculateMetrics c3A) (calculateMetrics c3B) < 15 ∧
      (calculateMetrics c3B).area > (calculateMetrics c3A).area ∧
      ¬ (calculateMetrics c3A).area < 50 ∧
      ¬ (calculateMetrics c3B).area < 50 ∧
      ¬ (calculateMetrics c3C).area < 50 ∧
      (survivingPairs [c3A, c3B, c3C]).map CM.contour = [c3C] := by
  refine ⟨c3_distAB, by rw [c3A_area, c3B_area]; norm_num,
    by rw [c3A_area]; norm_num, by rw [c3B_area]; norm_num,
    by rw [c3C_area]; norm_num, ?_⟩
  have hnf : noiseFiltered [c3A, c3B, c3C] =
      [⟨c3A, calculateMetrics c3A⟩, ⟨c3B, calculateMetrics c3B⟩,
        ⟨c3C, calculateMetrics c3C⟩] := by
    unfold noiseFiltered
    simp only [List.filterMap_cons, List.filterMap_nil]
    rw [if_neg (by rw [c3A_area]; norm_num), if_neg (by rw [c3B_area]; norm_num),
      if_neg (by rw [c3C_area]; norm_num)]
  rw [show survivingPairs [c3A, c3B, c3C] =
    outerContoursMetrics (noiseFiltered [c3A, c3B, c3C]) from rfl, hnf]
  have henum : ([⟨c3A, calculateMetrics c3A⟩, ⟨c3B, calculateMetrics c3B⟩,
      ⟨c3C, calculateMetrics c3C⟩] : List CM).enum =
      [(0, ⟨c3A, calculateMetrics c3A⟩), (1, ⟨c3B, calculateMetrics c3B⟩),
        (2, ⟨c3C, calculateMetrics c3C⟩)] := rfl
  have hA : isInnerAt [⟨c3A, calculateMetrics c3A⟩, ⟨c3B, calculateMetrics c3B⟩,
      ⟨c3C, calculateMetrics c3C⟩] 0 ⟨c3A, calculateMetrics c3A⟩ := by
    refine ⟨(1, ⟨c3B, calculateMetrics c3B⟩), by rw [henum]; simp, by norm_num,
      c3_distAB, ?_⟩
    rw [c3A_area, c3B_area]
    norm_num
  have hB : isInnerAt [⟨c3A, calculateMetrics c3A⟩, ⟨c3B, calculateMetrics c3B⟩,
      ⟨c3C, calculateMetrics c3C⟩] 1 ⟨c3B, calculateMetrics c3B⟩ := by
    refine ⟨(2, ⟨c3C, calculateMetrics c3C⟩), by rw [henum]; simp, by norm_num,
      c3_distBC, ?_⟩
    rw [c3B_area, c3C_area]
    norm_num
  have hC : ¬ isInnerAt [⟨c3A, calculateMetrics c3A⟩, ⟨c3B, calculateMetrics c3B⟩,
      ⟨c3C, calculateMetrics c3C⟩] 2 ⟨c3C, calculateMetrics c3C⟩ := by
    rintro ⟨p, hp, hne, hdist, harea⟩
    rw [henum] at hp
    simp only [List.mem_cons, List.not_mem_nil, or_false] at hp
    rcases hp with hp | hp | hp <;> subst hp
    · rw [show ((0, (⟨c3A, calculateMetrics c3A⟩ : CM)).2).metrics =
        calculateMetrics c3A from rfl] at harea
      rw [c3A_area, c3C_area] at harea
      norm_num at harea
    · rw [show ((1, (⟨c3B, calculateMetrics c3B⟩ : CM)).2).metrics =
        calculateMetrics c3B from rfl] at harea
      rw [c3B_area, c3C_area] at harea
      norm_num at harea
    · exact hne rfl
  rw [show outerContoursMetrics [⟨c3A, calculateMetrics c3A⟩,
    ⟨c3B, calculateMetrics c3B⟩, ⟨c3C, calculateMetrics c3C⟩] =
    outerAux [⟨c3A, calculateMetrics c3A⟩, ⟨c3B, calculateMetrics c3B⟩,
      ⟨c3C, calculateMetrics c3C⟩]
      [(0, ⟨c3A, calculateMetrics c3A⟩), (1, ⟨c3B, calculateMetrics c3B⟩),
        (2, ⟨c3C, calculateMetrics c3C⟩)] from by rw [← henum]; rfl]
  rw [outerAux, if_pos hA, outerAux, if_pos hB, outerAux, if_neg hC, outerAux]
  rfl

end

end ShapeDetector
